import Mathlib

/-!
Verification development for the coolcache server (a Redis-compatible
in-memory key/value store written in Python).

The definitions below are shallow embeddings of the Python source files:
`app/utils/rdb_writer.py`, `app/utils/rdb_parser.py`,
`app/utils/stream_utils.py` and the command handlers under `app/commands/`.

Modelling conventions:
* Python `bytes` values are `List Nat`, one natural number (< 256 by
  construction) per byte.
* Python `str` keys and file byte strings are related by UTF-8
  encoding/decoding, which is a bijection on the values the server stores;
  the embedding identifies the two and represents both as `List Nat`
  (for the snapshot codec) or `String` (for the command layer).
* Machine integers are `Nat`/`Int` with explicit `% 2 ^ w` where the source
  overflows; `struct.pack`/`struct.unpack` on `<I`/`<Q` become
  little-endian byte lists.
* Expiration instants (Python floats holding unix seconds) are modelled as
  rationals; Python `int(x)` on a non-negative value is `Rat.floor`.
* Code that raises is modelled with `Option`: `none` is an exception.
-/

namespace CoolCache

/-- Little-endian byte list of `n`, exactly `k` bytes (`struct.pack` of an
unsigned `k`-byte integer; higher bits are dropped as the pack would fail). -/
def leBytes : Nat → Nat → List Nat
  | 0, _ => []
  | k + 1, n => n % 256 :: leBytes k (n / 256)

/-- Read `k` bytes little-endian (`struct.unpack`); `none` when fewer than
`k` bytes remain (the source raises `EOFError`). Returns the value and the
rest of the input. -/
def readBytesLE : Nat → List Nat → Option (Nat × List Nat)
  | 0, input => some (0, input)
  | _ + 1, [] => none
  | k + 1, b :: rest =>
    match readBytesLE k rest with
    | none => none
    | some (v, r) => some (b + 256 * v, r)

/-! ### Length encoding (`rdb_writer.encode_length`, `rdb_parser.read_length`) -/

/-- Translated from `rdb_writer.encode_length` (the branch structure and the
bit operations follow the source; the negative-input `ValueError` and the
`struct.error` on values ≥ 2^32 are captured by `encode_length_checked`). -/
def encode_length (n : Nat) : List Nat :=
  if n ≤ 63 then
    [n]
  else if n ≤ 16383 then
    [0x40 ||| (n >>> 8), n &&& 0xFF]
  else
    0x80 :: leBytes 4 n

/-- `rdb_writer.encode_length` including its failure behaviour: the source
raises `ValueError` for negative lengths, and `struct.pack("<I", ·)` raises
for values that do not fit in 4 bytes. -/
def encode_length_checked (n : Int) : Option (List Nat) :=
  if n < 0 then none
  else if n < 4294967296 then some (encode_length n.toNat)
  else none

/-- Translated from `rdb_parser.read_length`. `none` models the
`EOFError`/`ValueError` raises. Returns the decoded value and the rest. -/
def read_length : List Nat → Option (Nat × List Nat)
  | [] => none
  | b :: rest =>
    if b &&& 0xC0 = 0 then
      some (b &&& 0x3F, rest)
    else if b &&& 0xC0 = 0x40 then
      match rest with
      | [] => none
      | b2 :: rest2 => some (((b &&& 0x3F) <<< 8) ||| b2, rest2)
    else if b = 0x80 then
      readBytesLE 4 rest
    else
      none

/-! ### Snapshot values and the writer (`rdb_writer.py`) -/

/-- The value kinds the snapshot codec handles (string, list, set, hash,
sorted set).  Byte strings are `List Nat`.  A sorted-set score is carried as
the 8-byte little-endian pattern that `struct.pack('<d', score)` writes;
`struct.unpack('<d', ·)` returns exactly the float with that pattern, so the
pattern is a faithful representation of the score up to float equality.
Sets and hashes keep the iteration order the Python objects would produce. -/
inductive RValue where
  | str (s : List Nat)
  | list (xs : List (List Nat))
  | set (xs : List (List Nat))
  | hash (xs : List (List Nat × List Nat))
  | zset (xs : List (List Nat × Nat))
  deriving DecidableEq

def RDB_OPCODE_EOF : Nat := 0xFF

def RDB_OPCODE_SELECTDB : Nat := 0xFE

/-- In the source `RDB_OPCODE_EXPIRY_MS = b'\xFD'`: the byte `0xFD` marks a
millisecond expiry with an 8-byte payload. -/
def RDB_OPCODE_EXPIRY_MS : Nat := 0xFD

/-- In the source `RDB_OPCODE_EXPIRY_SEC = b'\xFC'`: the byte `0xFC` marks a
second expiry with a 4-byte payload. -/
def RDB_OPCODE_EXPIRY_SEC : Nat := 0xFC

def RDB_OPCODE_RESIZEDB : Nat := 0xFB

def RDB_TYPE_STRING : Nat := 0x00

def RDB_TYPE_LIST : Nat := 0x01

def RDB_TYPE_SET : Nat := 0x02

def RDB_TYPE_HASH : Nat := 0x03

def RDB_TYPE_ZSET : Nat := 0x04

def RDB_TYPE_STREAM : Nat := 0x06

/-- `b'REDIS'`. -/
def REDIS_MAGIC : List Nat := [82, 69, 68, 73, 83]

/-- `b'0011'`. -/
def RDB_VERSION_CURRENT : List Nat := [48, 48, 49, 49]

/-- `rdb_writer.encode_string`: length prefix then the raw bytes. -/
def encode_string (s : List Nat) : List Nat :=
  encode_length s.length ++ s

/-- `rdb_writer.encode_set_value`: element count then each element. -/
def encode_set_value (xs : List (List Nat)) : List Nat :=
  encode_length xs.length ++ (xs.map encode_string).flatten

/-- `rdb_writer.encode_list_value`: element count then each element in order. -/
def encode_list_value (xs : List (List Nat)) : List Nat :=
  encode_length xs.length ++ (xs.map encode_string).flatten

/-- `rdb_writer.encode_hash_value`: pair count then each field and value. -/
def encode_hash_value (xs : List (List Nat × List Nat)) : List Nat :=
  encode_length xs.length ++ (xs.map (fun fv => encode_string fv.1 ++ encode_string fv.2)).flatten

/-- `rdb_writer.encode_zset_value`: pair count then each member followed by
its 8-byte score. -/
def encode_zset_value (xs : List (List Nat × Nat)) : List Nat :=
  encode_length xs.length ++ (xs.map (fun ms => encode_string ms.1 ++ leBytes 8 ms.2)).flatten

/-- `rdb_writer.encode_value`: dispatch on the Python dynamic type, returning
the type byte and the encoded payload.  The source classifies a list value as
a sorted set when every element is a `(member, score)` tuple; for the
byte-string lists the server stores this holds exactly when the list is
empty (`all` over an empty list is true), so an empty list is written with
the ZSET type byte. -/
def encode_value : RValue → Nat × List Nat
  | .str s => (RDB_TYPE_STRING, encode_string s)
  | .list xs =>
    if xs.isEmpty then (RDB_TYPE_ZSET, encode_zset_value [])
    else (RDB_TYPE_LIST, encode_list_value xs)
  | .set xs => (RDB_TYPE_SET, encode_set_value xs)
  | .hash xs => (RDB_TYPE_HASH, encode_hash_value xs)
  | .zset xs => (RDB_TYPE_ZSET, encode_zset_value xs)

/-- `rdb_writer.encode_key_value_pair`: type byte, key, value. -/
def encode_key_value_pair (key : List Nat) (value : RValue) : List Nat :=
  (encode_value value).1 :: (encode_string key ++ (encode_value value).2)

/-- `rdb_writer.encode_key_value_pair_with_expiry_ms`:
`0xFD`, 8-byte little-endian expiry in milliseconds, then type byte, key,
value. -/
def encode_key_value_pair_with_expiry_ms (key : List Nat) (value : RValue)
    (expiry_time_ms : Nat) : List Nat :=
  RDB_OPCODE_EXPIRY_MS ::
    (leBytes 8 expiry_time_ms ++
      (encode_value value).1 :: (encode_string key ++ (encode_value value).2))

/-- `rdb_writer.encode_key_value_pair_with_expiry_sec`:
`0xFC`, 4-byte little-endian expiry in seconds, then type byte, key, value. -/
def encode_key_value_pair_with_expiry_sec (key : List Nat) (value : RValue)
    (expiry_time_sec : Nat) : List Nat :=
  RDB_OPCODE_EXPIRY_SEC ::
    (leBytes 4 expiry_time_sec ++
      (encode_value value).1 :: (encode_string key ++ (encode_value value).2))

/-- Python `int(x)` for a float/`Rat`: truncation toward zero
(numerator divided by denominator, rounding toward zero). -/
def pyInt (q : ℚ) : Int :=
  q.num / (q.den : Int)

/-- `struct.pack("<I", n)` with its range check: Python raises
`struct.error` for an argument outside `[0, 2^32)` (`none` here), so the
seconds branch of `write_redis_file` — which packs `int(expiry_time)`
into 4 bytes — raises for any expiry in `[2^32, 10^12]` instead of
producing a record. -/
def pack_u32_checked (n : Int) : Option (List Nat) :=
  if n < 0 ∨ (4294967296 : Int) ≤ n then none else some (leBytes 4 n.toNat)

/-- Python dict membership/lookup on an insertion-ordered association list. -/
def lookupAssoc {κ α : Type} [DecidableEq κ] : List (κ × α) → κ → Option α
  | [], _ => none
  | (k, v) :: rest, key => if k = key then some v else lookupAssoc rest key

/-- `rdb_writer.write_header`: magic then version. -/
def write_header : List Nat :=
  REDIS_MAGIC ++ RDB_VERSION_CURRENT

/-- `rdb_writer.write_database_selector` as `write_redis_file` calls it (both
sizes always given): `0xFE`, database number, `0xFB`, key count,
expiring-key count. -/
def write_database_selector (db_number db_size expire_size : Nat) : List Nat :=
  RDB_OPCODE_SELECTDB :: db_number :: RDB_OPCODE_RESIZEDB ::
    (encode_length db_size ++ encode_length expire_size)

/-- The record `rdb_writer.write_redis_file` emits for one key: with an
expiry `> 10^12` the millisecond form, with any other expiry the second
form (`int(expiry_time)` truncates), otherwise the plain pair. -/
def write_one_record (expires : List (List Nat × ℚ)) (key : List Nat)
    (value : RValue) : List Nat :=
  match lookupAssoc expires key with
  | some expiry_time =>
    if expiry_time > 1000000000000 then
      encode_key_value_pair_with_expiry_ms key value (pyInt expiry_time).toNat
    else
      encode_key_value_pair_with_expiry_sec key value (pyInt expiry_time).toNat
  | none => encode_key_value_pair key value

/-- `rdb_writer.write_redis_file`: header, database selector with resize
hint, one record per key in dictionary order, `0xFF`. -/
def write_redis_file (data : List (List Nat × RValue))
    (expires : List (List Nat × ℚ)) (db_number : Nat) : List Nat :=
  write_header ++
    write_database_selector db_number data.length expires.length ++
    (data.map (fun kv => write_one_record expires kv.1 kv.2)).flatten ++
    [RDB_OPCODE_EOF]

/-! ### Snapshot parser (`rdb_parser.py`) -/

/-- `rdb_parser.read_string`: a length then that many bytes; `none` models
the `EOFError` when the input is shorter. -/
def read_string (input : List Nat) : Option (List Nat × List Nat) :=
  match read_length input with
  | none => none
  | some (len, rest) =>
    if rest.length < len then none else some (rest.take len, rest.drop len)

/-- Python `set.add` on an insertion-ordered list model of a set. -/
def pyAddSet (acc : List (List Nat)) (x : List Nat) : List (List Nat) :=
  if x ∈ acc then acc else acc ++ [x]

/-- Python `dict[key] = val` on an insertion-ordered association list:
an existing key keeps its position, a new key is appended. -/
def pyDictSet {κ α : Type} [DecidableEq κ] (acc : List (κ × α)) (key : κ)
    (val : α) : List (κ × α) :=
  match acc with
  | [] => [(key, val)]
  | (k, v) :: rest =>
    if k = key then (key, val) :: rest else (k, v) :: pyDictSet rest key val

/-- Python `dict.pop(key, None)` on an insertion-ordered association list. -/
def pyDictPop {κ α : Type} [DecidableEq κ] : List (κ × α) → κ → List (κ × α)
  | [], _ => []
  | (k, v) :: rest, key =>
    if k = key then rest else (k, v) :: pyDictPop rest key

/-- The element loop of `read_encoded_value` for lists. -/
def readListElems : Nat → List Nat → Option (List (List Nat) × List Nat)
  | 0, input => some ([], input)
  | n + 1, input =>
    match read_string input with
    | none => none
    | some (s, rest) =>
      match readListElems n rest with
      | none => none
      | some (xs, rest2) => some (s :: xs, rest2)

/-- The element loop of `read_encoded_value` for sets (`set.add`). -/
def readSetElems : Nat → List Nat → List (List Nat) →
    Option (List (List Nat) × List Nat)
  | 0, input, acc => some (acc, input)
  | n + 1, input, acc =>
    match read_string input with
    | none => none
    | some (s, rest) => readSetElems n rest (pyAddSet acc s)

/-- The field/value loop of `read_encoded_value` for hashes. -/
def readHashPairs : Nat → List Nat → List (List Nat × List Nat) →
    Option (List (List Nat × List Nat) × List Nat)
  | 0, input, acc => some (acc, input)
  | n + 1, input, acc =>
    match read_string input with
    | none => none
    | some (f, rest) =>
      match read_string rest with
      | none => none
      | some (v, rest2) => readHashPairs n rest2 (pyDictSet acc f v)

/-- The member/score loop of `read_encoded_value` for sorted sets. -/
def readZsetPairs : Nat → List Nat → Option (List (List Nat × Nat) × List Nat)
  | 0, input => some ([], input)
  | n + 1, input =>
    match read_string input with
    | none => none
    | some (m, rest) =>
      match readBytesLE 8 rest with
      | none => none
      | some (score, rest2) =>
        match readZsetPairs n rest2 with
        | none => none
        | some (xs, rest3) => some ((m, score) :: xs, rest3)

/-- `b"stream-placeholder"`. -/
def streamPlaceholder : List Nat :=
  [115, 116, 114, 101, 97, 109, 45, 112, 108, 97, 99, 101, 104, 111, 108, 100, 101, 114]

/-- The per-field skip loop of the stream branch of `read_encoded_value`. -/
def skipStreamFields : Nat → List Nat → Option (List Nat)
  | 0, input => some input
  | n + 1, input =>
    match read_length input with
    | none => none
    | some (flen, rest) =>
      match read_length (rest.drop flen) with
      | none => none
      | some (vlen, rest2) => skipStreamFields n (rest2.drop vlen)

/-- The entry skip loop of the stream branch of `read_encoded_value`:
16 id bytes, a field count, then the fields (`file.read` past the end
returns short without raising; `List.drop` matches that). -/
def skipStreamEntries : Nat → List Nat → Option (List Nat)
  | 0, input => some input
  | n + 1, input =>
    match read_length (input.drop 16) with
    | none => none
    | some (fields_count, rest) =>
      match skipStreamFields fields_count rest with
      | none => none
      | some rest2 => skipStreamEntries n rest2

/-- `rdb_parser.read_encoded_value`.  Outer `none` is an uncaught
`EOFError`; an inner `none` value is the `None` the source returns for an
unknown type byte (consuming nothing). -/
def read_encoded_value (value_type : Nat) (input : List Nat) :
    Option (Option RValue × List Nat) :=
  if value_type = RDB_TYPE_STRING then
    match read_string input with
    | none => none
    | some (s, rest) => some (some (.str s), rest)
  else if value_type = RDB_TYPE_LIST then
    match read_length input with
    | none => none
    | some (len, rest) =>
      match readListElems len rest with
      | none => none
      | some (xs, rest2) => some (some (.list xs), rest2)
  else if value_type = RDB_TYPE_SET then
    match read_length input with
    | none => none
    | some (len, rest) =>
      match readSetElems len rest [] with
      | none => none
      | some (xs, rest2) => some (some (.set xs), rest2)
  else if value_type = RDB_TYPE_HASH then
    match read_length input with
    | none => none
    | some (len, rest) =>
      match readHashPairs len rest [] with
      | none => none
      | some (xs, rest2) => some (some (.hash xs), rest2)
  else if value_type = RDB_TYPE_ZSET then
    match read_length input with
    | none => none
    | some (len, rest) =>
      match readZsetPairs len rest with
      | none => none
      | some (xs, rest2) => some (some (.zset xs), rest2)
  else if value_type = RDB_TYPE_STREAM then
    match read_length input with
    | none => none
    | some (len, rest) =>
      match skipStreamEntries len rest with
      | none => none
      | some rest2 => some (some (.str streamPlaceholder), rest2)
  else
    some (none, input)

/-- `rdb_parser.decode_value`: UTF-8 decoding of the byte strings inside a
parsed value; the embedding identifies byte strings before and after the
decode, so this is the identity. -/
def decode_value (v : RValue) : RValue := v

/-- `rdb_parser.handle_database_selector`: one database-number byte, then an
optional `0xFB` resize hint with two lengths (the position is rewound when
the next byte is not `0xFB`). -/
def handle_database_selector (input : List Nat) : Option (List Nat) :=
  match input with
  | [] => none
  | _db :: rest =>
    match rest with
    | [] => some []
    | b :: rest2 =>
      if b = RDB_OPCODE_RESIZEDB then
        match read_length rest2 with
        | none => none
        | some (_, r1) =>
          match read_length r1 with
          | none => none
          | some (_, r2) => some r2
      else
        some rest

/-- `rdb_parser.handle_key_value_pair_with_expiry_ms` (opcode `0xFD`):
8-byte little-endian milliseconds, divided by 1000 into seconds, then type
byte, key and value.  The record is dropped (inner `none`) when
`0 < expiry < now`; the float division is modelled as exact division. -/
def handle_key_value_pair_with_expiry_ms (now : ℚ) (input : List Nat) :
    Option (Option (List Nat × Option RValue × ℚ) × List Nat) :=
  match readBytesLE 8 input with
  | none => none
  | some (t, r1) =>
    match r1 with
    | [] => none
    | value_type :: r2 =>
      match read_string r2 with
      | none => none
      | some (key, r3) =>
        match read_encoded_value value_type r3 with
        | none => none
        | some (v, r4) =>
          let expiry_time : ℚ := (t : ℚ) / 1000
          if 0 < expiry_time ∧ expiry_time < now then some (none, r4)
          else some (some (key, v, expiry_time), r4)

/-- `rdb_parser.handle_key_value_pair_with_expiry_sec` (opcode `0xFC`):
4-byte little-endian seconds, then type byte, key and value.  The record is
dropped when `0 < expiry < now`. -/
def handle_key_value_pair_with_expiry_sec (now : ℚ) (input : List Nat) :
    Option (Option (List Nat × Option RValue × ℚ) × List Nat) :=
  match readBytesLE 4 input with
  | none => none
  | some (t, r1) =>
    match r1 with
    | [] => none
    | value_type :: r2 =>
      match read_string r2 with
      | none => none
      | some (key, r3) =>
        match read_encoded_value value_type r3 with
        | none => none
        | some (v, r4) =>
          let expiry_time : ℚ := (t : ℚ)
          if 0 < expiry_time ∧ expiry_time < now then some (none, r4)
          else some (some (key, v, expiry_time), r4)

/-- `rdb_parser.handle_key_value_pair` (a type byte as opcode): key then
value. -/
def handle_key_value_pair (value_type : Nat) (input : List Nat) :
    Option (Option (List Nat × RValue) × List Nat) :=
  match read_string input with
  | none => none
  | some (key, r1) =>
    match read_encoded_value value_type r1 with
    | none => none
    | some (v, r2) => some (v.map (fun w => (key, w)), r2)

/-- The main loop of `rdb_parser.parse_redis_file`.  `fuel` bounds the
number of iterations (each iteration of the source loop consumes at least
the opcode byte); a record whose handler raises ends the parse with the
entries accumulated so far, as the source's outer `except` does. -/
def parseLoop (now : ℚ) :
    Nat → List Nat → List (List Nat × RValue) → List (List Nat × ℚ) →
    List (List Nat × RValue) × List (List Nat × ℚ)
  | 0, _, d, e => (d, e)
  | fuel + 1, input, d, e =>
    match input with
    | [] => (d, e)
    | opcode :: rest =>
      if opcode = RDB_OPCODE_EOF then (d, e)
      else if opcode = RDB_OPCODE_SELECTDB then
        match handle_database_selector rest with
        | none => (d, e)
        | some r => parseLoop now fuel r d e
      else if opcode = RDB_OPCODE_EXPIRY_MS then
        match handle_key_value_pair_with_expiry_ms now rest with
        | none => (d, e)
        | some (none, r) => parseLoop now fuel r d e
        | some (some (_, none, _), r) => parseLoop now fuel r d e
        | some (some (key, some v, expiry), r) =>
          parseLoop now fuel r (pyDictSet d key (decode_value v))
            (if 0 < expiry then pyDictSet e key expiry else e)
      else if opcode = RDB_OPCODE_EXPIRY_SEC then
        match handle_key_value_pair_with_expiry_sec now rest with
        | none => (d, e)
        | some (none, r) => parseLoop now fuel r d e
        | some (some (_, none, _), r) => parseLoop now fuel r d e
        | some (some (key, some v, expiry), r) =>
          parseLoop now fuel r (pyDictSet d key (decode_value v))
            (if 0 < expiry then pyDictSet e key expiry else e)
      else
        match handle_key_value_pair opcode rest with
        | none => (d, e)
        | some (none, r) => parseLoop now fuel r d e
        | some (some (key, v), r) =>
          parseLoop now fuel r (pyDictSet d key (decode_value v)) e

/-- `rdb_parser.parse_redis_file`: validate the magic, accept any version,
then run the record loop.  `now` is the value `time.time()` returns during
the parse. -/
def parse_redis_file (input : List Nat) (now : ℚ) :
    List (List Nat × RValue) × List (List Nat × ℚ) :=
  if input.take 5 = REDIS_MAGIC then
    parseLoop now input.length (input.drop 9) [] []
  else
    ([], [])

/-- The value the parser reconstructs for a written value.  Python
represents both an empty list and an empty sorted set as `[]`, and the
writer emits an empty list with the ZSET type byte, so the reconstruction
of `.list []` is `.zset []`; every other value is reconstructed as
itself. -/
def canonValue : RValue → RValue
  | .list [] => .zset []
  | v => v

/-- The size conditions under which the source writer does not raise
`struct.error` (all lengths fit the length encoding, scores fit 8 bytes)
and under which Python `set`/`dict` reconstruction is lossless
(distinct set elements and hash fields). -/
def wfValue : RValue → Prop
  | .str s => s.length < 4294967296
  | .list xs => xs.length < 4294967296 ∧ ∀ s ∈ xs, s.length < 4294967296
  | .set xs => xs.length < 4294967296 ∧ (∀ s ∈ xs, s.length < 4294967296) ∧ xs.Nodup
  | .hash xs => xs.length < 4294967296 ∧
      (∀ p ∈ xs, p.1.length < 4294967296 ∧ p.2.length < 4294967296) ∧
      (xs.map Prod.fst).Nodup
  | .zset xs => xs.length < 4294967296 ∧
      ∀ p ∈ xs, p.1.length < 4294967296 ∧ p.2 < 18446744073709551616

/-! ### The in-memory store and the command layer (`app/commands/*.py`) -/

/-- The Python values `handler.memory` holds: `str`, `list` of `str`,
`set` of `str` (kept in iteration order), `dict` (hash), and
`CoolCacheSortedSet` (whose member/score payload none of the embedded
commands inspect beyond the type dispatch). -/
inductive MemVal where
  | str (s : String)
  | list (xs : List String)
  | set (xs : List String)
  | hash (xs : List (String × String))
  | zset (xs : List (String × ℚ))
  deriving DecidableEq

/-- The per-connection handler state the embedded commands touch:
`handler.memory`, `handler.expiration` (absolute unix seconds),
the registered replica writers (`server.writers`, one accumulated output
string per writer), `server.numacks`, and the dirty counter
`server.changes_since_last_save`. -/
structure Handler where
  memory : List (String × MemVal)
  expiration : List (String × ℚ)
  writers : List String
  numacks : Nat
  changes : Nat
  deriving DecidableEq

def NOT_FOUND_RESPONSE : String := "$-1\r\n"

def NIL_RESPONSE : String := "+nil\r\n"

def SYNTAX_ERROR : String := "-ERR syntax error\r\n"

def WRONG_TYPE_RESPONSE : String :=
  "-WRONGTYPE Operation against a key holding the wrong kind of value\r\n"

def NON_INT_ERROR : String := "-ERR value is not an integer or out of range\r\n"

def EMPTY_ARRAY_RESPONSE : String := "+(empty array)"

/-- `str.upper()` (character-wise, which is what the command tokens need). -/
def pyUpper (s : String) : String := ⟨s.data.map Char.toUpper⟩

/-- `str.lower()` (character-wise). -/
def pyLower (s : String) : String := ⟨s.data.map Char.toLower⟩

def digitsToNat (cs : List Char) : Nat :=
  cs.foldl (fun a c => a * 10 + (c.toNat - 48)) 0

/-- Python `int(str)` on the bare decimal tokens the commands pass
(optional sign, digits); `none` is the `ValueError`. -/
def pyParseInt (s : String) : Option Int :=
  match s.data with
  | [] => none
  | '-' :: rest =>
    if rest ≠ [] ∧ rest.all Char.isDigit then some (-(digitsToNat rest : Int)) else none
  | '+' :: rest =>
    if rest ≠ [] ∧ rest.all Char.isDigit then some ((digitsToNat rest : Int)) else none
  | cs =>
    if cs.all Char.isDigit then some ((digitsToNat cs : Int)) else none

/-- `encoding_utils.as_bulk_string`; `none` is Python `None`
(`not payload` also catches the empty string). -/
def as_bulk_string : Option String → String
  | none => NOT_FOUND_RESPONSE
  | some p =>
    if p = "" then NOT_FOUND_RESPONSE
    else if p = NOT_FOUND_RESPONSE then NOT_FOUND_RESPONSE
    else if p = WRONG_TYPE_RESPONSE then WRONG_TYPE_RESPONSE
    else "$" ++ toString p.length ++ "\r\n" ++ p ++ "\r\n"

/-- `encoding_utils.generate_redis_array` as the commands call it (list
argument only): the empty list renders as `+(empty array)`, and an element
equal to the WRONGTYPE sentinel is replaced by `None` before bulk
encoding. -/
def generate_redis_array (lst : List String) : String :=
  if lst.length = 0 then EMPTY_ARRAY_RESPONSE
  else
    (lst.map (fun e =>
        as_bulk_string (if e = WRONG_TYPE_RESPONSE then none else some e))).foldl
      (· ++ ·) ("*" ++ toString lst.length ++ "\r\n")

/-- `encoding_utils.encode_redis_protocol`: the array-of-bulk-strings
encoding of a command (the propagated replica bytes). -/
def encode_redis_protocol (data : List String) : String :=
  (data.map (fun e => "$" ++ toString e.length ++ "\r\n" ++ e ++ "\r\n")).foldl
    (· ++ ·) ("*" ++ toString data.length ++ "\r\n")

/-- `list_commands.get_list_from_memory`: `some []` for a missing key, the
stored list for a list key, `none` for the WRONGTYPE sentinel. -/
def get_list_from_memory (mem : List (String × MemVal)) (key : String) :
    Option (List String) :=
  match lookupAssoc mem key with
  | none => some []
  | some (.list xs) => some xs
  | some _ => none

/-- `set_commands.get_set_from_memory` (same shape as the list accessor). -/
def get_set_from_memory (mem : List (String × MemVal)) (key : String) :
    Option (List String) :=
  match lookupAssoc mem key with
  | none => some []
  | some (.set xs) => some xs
  | some _ => none

/-- `hash_map_commands.get_hash_map_from_memory`. -/
def get_hash_map_from_memory (mem : List (String × MemVal)) (key : String) :
    Option (List (String × String)) :=
  match lookupAssoc mem key with
  | none => some []
  | some (.hash xs) => some xs
  | some _ => none

/-- The expiry test of `string_commands.get_value`:
`expiration.get(key, None) and expiration[key] < time.time()` — a missing
entry and the value `0` are both falsy. -/
def isExpired (exp : List (String × ℚ)) (now : ℚ) (key : String) : Bool :=
  match lookupAssoc exp key with
  | some t => decide (t ≠ 0) && decide (t < now)
  | none => false

/-- `string_commands.get_value`: the only TTL-checking read path.  On an
expired key it removes the entry and its expiration and returns Python
`None` (`none`); otherwise it returns the not-found sentinel, the
WRONGTYPE sentinel, or the stored string. -/
def get_value (st : Handler) (now : ℚ) (key : String) :
    Option String × Handler :=
  if isExpired st.expiration now key then
    (none, { st with memory := pyDictPop st.memory key,
                     expiration := pyDictPop st.expiration key })
  else
    match lookupAssoc st.memory key with
    | none => (some NOT_FOUND_RESPONSE, st)
    | some (.str s) => (some s, st)
    | some _ => (some WRONG_TYPE_RESPONSE, st)

/-- `string_commands.GetCommand.execute`. -/
def exec_get (st : Handler) (now : ℚ) (key : String) : String × Handler :=
  let r := get_value st now key
  (as_bulk_string r.1, r.2)

/-- The `PX` option scan of `string_commands.SetCommand.execute` (the
`while` loop from index 3): the last `PX <n>` wins; an unparseable value
returns the integer error. -/
def scanPX : List String → Option Int → Except Unit (Option Int)
  | [], acc => .ok acc
  | a :: rest, acc =>
    if pyUpper a = "PX" then
      match rest with
      | [] => .ok acc
      | b :: rest2 =>
        match pyParseInt b with
        | none => .error ()
        | some n => scanPX rest2 (some n)
    else scanPX rest acc

/-- `string_commands.SetCommand.execute`: store the string, set or clear
the expiration, bump the dirty counter, reset `numacks`, and write the
encoded command to every registered replica writer. -/
def exec_set (st : Handler) (now : ℚ) (command : List String) :
    String × Handler :=
  if command.length < 3 then
    ("-ERR wrong number of arguments for 'set' command\r\n", st)
  else
    let key := command.getD 1 ""
    let value := command.getD 2 ""
    match scanPX (command.drop 3) none with
    | .error _ => ("-ERR value is not an integer or out of range\r\n", st)
    | .ok expiryMs =>
      let exp' :=
        match expiryMs with
        | some ms => pyDictSet st.expiration key (now + (ms : ℚ) / 1000)
        | none => pyDictPop st.expiration key
      ("+OK\r\n",
        { memory := pyDictSet st.memory key (.str value),
          expiration := exp',
          writers := st.writers.map (fun w => w ++ encode_redis_protocol command),
          numacks := 0,
          changes := st.changes + 1 })

/-- `list_commands.LPushCommand.execute`. -/
def exec_lpush (st : Handler) (key : String) (values : List String) :
    String × Handler :=
  match get_list_from_memory st.memory key with
  | none => (WRONG_TYPE_RESPONSE, st)
  | some existing =>
    let newList := values.reverse ++ existing
    (":" ++ toString newList.length ++ "\r\n",
      { st with memory := pyDictSet st.memory key (.list newList) })

/-- `list_commands.RPushCommand.execute` (no replica propagation in the
source). -/
def exec_rpush (st : Handler) (key : String) (values : List String) :
    String × Handler :=
  match get_list_from_memory st.memory key with
  | none => (WRONG_TYPE_RESPONSE, st)
  | some existing =>
    let newList := existing ++ values
    (":" ++ toString newList.length ++ "\r\n",
      { st with memory := pyDictSet st.memory key (.list newList) })

/-- `list_commands.LPushXCommand.execute`: refuses with the WRONGTYPE
sentinel both on a wrong-kind key and on a missing/empty list. -/
def exec_lpushx (st : Handler) (key : String) (values : List String) :
    String × Handler :=
  match get_list_from_memory st.memory key with
  | none => (WRONG_TYPE_RESPONSE, st)
  | some existing =>
    if existing.isEmpty then (WRONG_TYPE_RESPONSE, st)
    else
      let newList := values.reverse ++ existing
      (":" ++ toString newList.length ++ "\r\n",
        { st with memory := pyDictSet st.memory key (.list newList) })

/-- `list_commands.RPushXCommand.execute`. -/
def exec_rpushx (st : Handler) (key : String) (values : List String) :
    String × Handler :=
  match get_list_from_memory st.memory key with
  | none => (WRONG_TYPE_RESPONSE, st)
  | some existing =>
    if existing.isEmpty then (WRONG_TYPE_RESPONSE, st)
    else
      let newList := existing ++ values
      (":" ++ toString newList.length ++ "\r\n",
        { st with memory := pyDictSet st.memory key (.list newList) })

/-- `list_commands.LPopCommand.execute`: pop the head in place; when the
list empties, remove the key. -/
def exec_lpop (st : Handler) (key : String) : String × Handler :=
  match get_list_from_memory st.memory key with
  | none => (WRONG_TYPE_RESPONSE, st)
  | some [] => (NIL_RESPONSE, st)
  | some (x :: rest) =>
    let mem' :=
      if rest.isEmpty then pyDictPop st.memory key
      else pyDictSet st.memory key (.list rest)
    ("$" ++ toString x.length ++ "\r\n" ++ x ++ "\r\n",
      { st with memory := mem' })

/-- `list_commands.RPopCommand.execute`. -/
def exec_rpop (st : Handler) (key : String) : String × Handler :=
  match get_list_from_memory st.memory key with
  | none => (WRONG_TYPE_RESPONSE, st)
  | some [] => (NIL_RESPONSE, st)
  | some (x :: rest) =>
    let xs := x :: rest
    let v := xs.getLast (by simp)
    let remaining := xs.dropLast
    let mem' :=
      if remaining.isEmpty then pyDictPop st.memory key
      else pyDictSet st.memory key (.list remaining)
    ("$" ++ toString v.length ++ "\r\n" ++ v ++ "\r\n",
      { st with memory := mem' })

/-- `list_commands.LLenCommand.execute`. -/
def exec_llen (st : Handler) (key : String) : String × Handler :=
  match get_list_from_memory st.memory key with
  | none => (WRONG_TYPE_RESPONSE, st)
  | some xs => (":" ++ toString xs.length ++ "\r\n", st)

/-- Python list slicing `xs[a:b]` (step 1) with negative-index
resolution. -/
def pySlice {α : Type} (xs : List α) (a b : Int) : List α :=
  let n : Int := xs.length
  let a' := (if a < 0 then max 0 (n + a) else min a n).toNat
  let b' := (if b < 0 then max 0 (n + b) else min b n).toNat
  (xs.take b').drop a'

/-- `list_commands.LRangeCommand.execute` for already-parsed bounds (the
source calls `int()` on the raw arguments without a guard): resolve
negative indices from the tail, clamp **both** bounds into
`[0, len - 1]`, and return the inclusive slice. -/
def exec_lrange (st : Handler) (key : String) (start stop : Int) :
    String × Handler :=
  match get_list_from_memory st.memory key with
  | none => (WRONG_TYPE_RESPONSE, st)
  | some values =>
    let n : Int := values.length
    let s1 := if start < 0 then n + start else start
    let t1 := if stop < 0 then n + stop else stop
    let s2 := max 0 s1
    let t2 := max 0 t1
    let s3 := min (n - 1) s2
    let t3 := min (n - 1) t2
    (generate_redis_array (pySlice values s3 (t3 + 1)), st)

/-- `list_commands.LIndexCommand.execute`. -/
def exec_lindex (st : Handler) (key : String) (indexStr : String) :
    String × Handler :=
  match pyParseInt indexStr with
  | none => (NON_INT_ERROR, st)
  | some i =>
    match get_list_from_memory st.memory key with
    | none => (WRONG_TYPE_RESPONSE, st)
    | some xs =>
      let i' := if i < 0 then (xs.length : Int) + i else i
      if i' < 0 ∨ (xs.length : Int) ≤ i' then (NIL_RESPONSE, st)
      else
        let v := xs.getD i'.toNat ""
        ("$" ++ toString v.length ++ "\r\n" ++ v ++ "\r\n", st)

/-- `list_commands.LSetCommand.execute`: an out-of-range index answers
with the integer error (the source reuses `NON_INT_ERROR`). -/
def exec_lset (st : Handler) (key : String) (indexStr : String)
    (value : String) : String × Handler :=
  match pyParseInt indexStr with
  | none => (NON_INT_ERROR, st)
  | some i =>
    match get_list_from_memory st.memory key with
    | none => (WRONG_TYPE_RESPONSE, st)
    | some xs =>
      let i' := if i < 0 then (xs.length : Int) + i else i
      if i' < 0 ∨ (xs.length : Int) ≤ i' then (NON_INT_ERROR, st)
      else
        ("+OK\r\n",
          { st with memory := pyDictSet st.memory key (.list (xs.set i'.toNat value)) })

/-- `list_commands.LInsertCommand.execute`: insert before/after the first
occurrence of the pivot; a missing pivot answers `+nil`, an unknown
position token the syntax error. -/
def exec_linsert (st : Handler) (key : String) (position : String)
    (pivot : String) (value : String) : String × Handler :=
  match get_list_from_memory st.memory key with
  | none => (WRONG_TYPE_RESPONSE, st)
  | some xs =>
    if pivot ∈ xs then
      if pyLower position = "before" then
        let newList := xs.insertIdx (xs.indexOf pivot) value
        (":" ++ toString newList.length ++ "\r\n",
          { st with memory := pyDictSet st.memory key (.list newList) })
      else if pyLower position = "after" then
        let newList := xs.insertIdx (xs.indexOf pivot + 1) value
        (":" ++ toString newList.length ++ "\r\n",
          { st with memory := pyDictSet st.memory key (.list newList) })
      else (SYNTAX_ERROR, st)
    else (NIL_RESPONSE, st)

/-- `set_commands.SAddCommand.execute`. -/
def exec_sadd (st : Handler) (key : String) (values : List String) :
    String × Handler :=
  match get_set_from_memory st.memory key with
  | none => (WRONG_TYPE_RESPONSE, st)
  | some xs =>
    let step := values.foldl
      (fun (acc : List String × Nat) v =>
        if v ∈ acc.1 then acc else (acc.1 ++ [v], acc.2 + 1))
      (xs, 0)
    (":" ++ toString step.2 ++ "\r\n",
      { st with memory := pyDictSet st.memory key (.set step.1) })

/-- `set_commands.SRemCommand.execute`: removal mutates the stored set in
place, so the store changes only when the key was present. -/
def exec_srem (st : Handler) (key : String) (values : List String) :
    String × Handler :=
  match get_set_from_memory st.memory key with
  | none => (WRONG_TYPE_RESPONSE, st)
  | some xs =>
    let step := values.foldl
      (fun (acc : List String × Nat) v =>
        if v ∈ acc.1 then (acc.1.erase v, acc.2 + 1) else acc)
      (xs, 0)
    let mem' :=
      if (lookupAssoc st.memory key).isSome then
        pyDictSet st.memory key (.set step.1)
      else st.memory
    (":" ++ toString step.2 ++ "\r\n", { st with memory := mem' })

/-- `set_commands.SPopCommand.execute`: `set.pop()` removes the first
element in the set's iteration order. -/
def exec_spop (st : Handler) (key : String) : String × Handler :=
  match get_set_from_memory st.memory key with
  | none => (WRONG_TYPE_RESPONSE, st)
  | some [] => (NOT_FOUND_RESPONSE, st)
  | some (x :: rest) =>
    let mem' :=
      if (lookupAssoc st.memory key).isSome then
        pyDictSet st.memory key (.set rest)
      else st.memory
    ("$" ++ toString x.length ++ "\r\n" ++ x ++ "\r\n", { st with memory := mem' })

/-- `set_commands.SIsMemberCommand.execute`. -/
def exec_sismember (st : Handler) (key : String) (value : String) :
    String × Handler :=
  match get_set_from_memory st.memory key with
  | none => (WRONG_TYPE_RESPONSE, st)
  | some xs => (":" ++ toString (if value ∈ xs then 1 else 0) ++ "\r\n", st)

/-- `set_commands.SMoveCommand.execute`: the member is removed from the
source set in place, and added to the object `get_set_from_memory`
returned for the destination — a **fresh, unstored set** when the
destination key is absent, so no destination key is ever created. -/
def exec_smove (st : Handler) (source_key dest_key value : String) :
    String × Handler :=
  match get_set_from_memory st.memory source_key with
  | none => (WRONG_TYPE_RESPONSE, st)
  | some srcXs =>
    if value ∈ srcXs then
      match get_set_from_memory st.memory dest_key with
      | none => (WRONG_TYPE_RESPONSE, st)
      | some dstXs =>
        let mem1 := pyDictSet st.memory source_key (.set (srcXs.erase value))
        let mem2 :=
          if (lookupAssoc st.memory dest_key).isSome then
            pyDictSet mem1 dest_key
              (.set (if value ∈ dstXs then dstXs else dstXs ++ [value]))
          else mem1
        (":1\r\n", { st with memory := mem2 })
    else (":0\r\n", st)

/-- `hash_map_commands.HSetCommand.execute` for the already-paired
field/value arguments (the source indexes `command[i]`, `command[i+1]`
in steps of two). -/
def exec_hset (st : Handler) (key : String) (pairs : List (String × String)) :
    String × Handler :=
  match get_hash_map_from_memory st.memory key with
  | none => (WRONG_TYPE_RESPONSE, st)
  | some h =>
    let h' := pairs.foldl (fun a fv => pyDictSet a fv.1 fv.2) h
    ("+OK\r\n", { st with memory := pyDictSet st.memory key (.hash h') })

/-- `hash_map_commands.HGetCommand.execute`. -/
def exec_hget (st : Handler) (key : String) (field : String) :
    String × Handler :=
  match get_hash_map_from_memory st.memory key with
  | none => (WRONG_TYPE_RESPONSE, st)
  | some h =>
    match lookupAssoc h field with
    | none => (NIL_RESPONSE, st)
    | some v => (as_bulk_string (some v), st)

/-- `hash_map_commands.HGetAllCommand.execute`. -/
def exec_hgetall (st : Handler) (key : String) : String × Handler :=
  match get_hash_map_from_memory st.memory key with
  | none => (WRONG_TYPE_RESPONSE, st)
  | some h =>
    (generate_redis_array ((h.map (fun fv => [fv.1, fv.2])).flatten), st)

/-- `string_commands.IncrByCommand.execute`.  The outer `none` is the
uncaught `TypeError` of `int(None)` when the key was expired (the source
catches only `ValueError`). -/
def exec_incrby (st : Handler) (now : ℚ) (key : String)
    (incrementStr : String) : Option (String × Handler) :=
  let r := get_value st now key
  match r.1 with
  | none => none
  | some v =>
    if v = WRONG_TYPE_RESPONSE then some (WRONG_TYPE_RESPONSE, r.2)
    else
      let v' := if v = NOT_FOUND_RESPONSE then "0" else v
      match pyParseInt incrementStr, pyParseInt v' with
      | some inc, some x =>
        let nv := toString (x + inc)
        some (":" ++ nv ++ "\r\n",
          { r.2 with memory := pyDictSet r.2.memory key (.str nv) })
      | _, _ => some (NON_INT_ERROR, r.2)

/-- `string_commands.AppendCommand.execute`.  The outer `none` is the
uncaught `KeyError` of `memory[key] += value` after an expired key was
popped by `get_value`. -/
def exec_append (st : Handler) (now : ℚ) (key : String) (value : String) :
    Option (String × Handler) :=
  let r := get_value st now key
  match r.1 with
  | none => none
  | some v =>
    if v = WRONG_TYPE_RESPONSE then some (WRONG_TYPE_RESPONSE, r.2)
    else if v = NOT_FOUND_RESPONSE then
      some (":" ++ toString value.length ++ "\r\n",
        { r.2 with memory := pyDictSet r.2.memory key (.str value) })
    else
      let nv := v ++ value
      some (":" ++ toString nv.length ++ "\r\n",
        { r.2 with memory := pyDictSet r.2.memory key (.str nv) })

/-! ### Streams (`app/utils/stream_utils.py`, `stream_commands.XAddCommand`) -/

/-- One stream's entries as the source stores them:
`streamstore[stream_key]` is a dict from entry number (`ms`) to a dict
from sequence number to the field list, both in insertion order. -/
abbrev StreamEntries := List (Nat × List (Nat × List String))

/-- Python string `<` (lexicographic on code points). -/
def pyStrLt : List Char → List Char → Bool
  | [], [] => false
  | [], _ :: _ => true
  | _ :: _, [] => false
  | a :: restA, b :: restB =>
    if a = b then pyStrLt restA restB else decide (a.toNat < b.toNat)

/-- Python string `<=`, the comparison `stream_id <= "0-0"` performs. -/
def pyStrLe (a b : String) : Bool := pyStrLt a.data b.data || a = b

/-- `str.split("-")`. -/
def splitOnDash : List Char → List (List Char)
  | [] => [[]]
  | c :: rest =>
    match splitOnDash rest with
    | [] => [[]]
    | h :: t => if c = '-' then [] :: h :: t else (c :: h) :: t

/-- `str.isdigit()` guarded decimal parse. -/
def digitsToNatOpt (cs : List Char) : Option Nat :=
  if cs ≠ [] ∧ cs.all Char.isDigit then some (digitsToNat cs) else none

/-- The id parse shared by `stream_utils._is_valid_id` and the `int()`
calls on `stream_id.split("-")`: exactly two dash-separated digit
groups. -/
def parseStreamId (s : String) : Option (Nat × Nat) :=
  match splitOnDash s.data with
  | [a, b] =>
    match digitsToNatOpt a, digitsToNatOpt b with
    | some x, some y => some (x, y)
    | _, _ => none
  | _ => none

/-- `stream_utils.generate_stream_id` restricted to the literal `ms-seq`
form, which it returns unchanged.  The `ms-*` and `*` forms read the wall
clock and are outside the embedded fragment; for them and any other
input this model returns the source's fallthrough value `""` (which the
subsequent validation always rejects). -/
def generate_stream_id (stream_id : String) : String :=
  if (parseStreamId stream_id).isSome then stream_id else ""

/-- `stream_utils.validate_stream_id`: the string comparison against
`"0-0"`, then the numeric comparison against the last id
(`list(dict.keys())[-1]` twice).  The `IndexError` of an empty stored
stream and the `ValueError` of a non-digit id cannot occur on the stores
`xadd` builds; those arms answer `""`. -/
def validate_stream_id (store : List (String × StreamEntries))
    (stream_key : String) (stream_id : String) : String :=
  if pyStrLe stream_id "0-0" then
    "-ERR The ID specified in XADD must be greater than 0-0\r\n"
  else
    match lookupAssoc store stream_key with
    | none => ""
    | some s =>
      match s.getLast? with
      | none => ""
      | some (last_entry_number, inner) =>
        match inner.getLast? with
        | none => ""
        | some (last_entry_sequence, _) =>
          match parseStreamId stream_id with
          | none => ""
          | some (current_entry_number, current_entry_sequence) =>
            if current_entry_number < last_entry_number then
              "-ERR The ID specified in XADD is equal or smaller than the target stream top item\r\n"
            else if current_entry_number = last_entry_number ∧
                current_entry_sequence ≤ last_entry_sequence then
              "-ERR The ID specified in XADD is equal or smaller than the target stream top item\r\n"
            else ""

/-- `stream_commands.XAddCommand.execute` (the trailing `command[3:]`
field list is passed already split off): generate, validate, then insert
into the nested dicts, creating the stream and/or the entry-number level
as needed. -/
def xadd (store : List (String × StreamEntries)) (stream_key : String)
    (stream_id : String) (fields : List String) :
    String × List (String × StreamEntries) :=
  let sid := generate_stream_id stream_id
  let err := validate_stream_id store stream_key sid
  if err ≠ "" then (err, store)
  else
    match parseStreamId sid with
    | none => ("", store)
    | some (entry_number, sequence_number) =>
      let s0 := match lookupAssoc store stream_key with
        | none => []
        | some s => s
      let s1 := match lookupAssoc s0 entry_number with
        | none => s0 ++ [(entry_number, [(sequence_number, fields)])]
        | some inner =>
          pyDictSet s0 entry_number (pyDictSet inner sequence_number fields)
      ("$" ++ toString sid.length ++ "\r\n" ++ sid ++ "\r\n",
        pyDictSet store stream_key s1)

/-- The ids of a stream in storage order. -/
def flattenIds (s : StreamEntries) : List (Nat × Nat) :=
  (s.map (fun en => en.2.map (fun qf => (en.1, qf.1)))).flatten

/-- Strict lexicographic order on `(ms, seq)` ids. -/
def idLt (a b : Nat × Nat) : Prop :=
  a.1 < b.1 ∨ (a.1 = b.1 ∧ a.2 < b.2)

/-- The shape every stored stream has: nonempty, nonempty per-`ms`
groups, strictly increasing `ms` keys, and strictly increasing flattened
ids. -/
def streamWF (s : StreamEntries) : Prop :=
  s ≠ [] ∧ (∀ p ∈ s, p.2 ≠ []) ∧
  List.Chain' (· < ·) (s.map Prod.fst) ∧
  List.Chain' idLt (flattenIds s)

/-- A sequence of XADD commands applied in order from a store. -/
def applyXadds (store : List (String × StreamEntries))
    (cmds : List (String × String × List String)) :
    List (String × StreamEntries) :=
  cmds.foldl (fun st c => (xadd st c.1 c.2.1 c.2.2).2) store

/-! ### Theorems: byte-level primitives and length encoding -/

theorem leBytes_length (k n : Nat) : (leBytes k n).length = k := by
  induction k generalizing n with
  | zero => rfl
  | succ k ih => simp [leBytes, ih]

theorem readBytesLE_leBytes (k : Nat) (n : Nat) (rest : List Nat)
    (h : n < 2 ^ (8 * k)) :
    readBytesLE k (leBytes k n ++ rest) = some (n, rest) := by
  induction k generalizing n with
  | zero =>
    simp only [Nat.mul_zero, pow_zero, Nat.lt_one_iff] at h
    simp [h, leBytes, readBytesLE]
  | succ k ih =>
    have hdiv : n / 256 < 2 ^ (8 * k) := by
      have h256 : (0 : Nat) < 256 := by norm_num
      rw [Nat.div_lt_iff_lt_mul h256]
      calc n < 2 ^ (8 * (k + 1)) := h
        _ = 2 ^ (8 * k) * 256 := by ring
    simp only [leBytes, List.cons_append, readBytesLE, List.append_eq]
    rw [ih (n / 256) hdiv]
    have hmd : n % 256 + 256 * (n / 256) = n := by omega
    simp [hmd]


theorem and_mask_eq_mod (n k : Nat) : n &&& (2 ^ k - 1) = n % 2 ^ k := by
  apply Nat.eq_of_testBit_eq
  intro j
  rw [Nat.testBit_land, Nat.testBit_mod_two_pow, Nat.testBit_two_pow_sub_one,
    Bool.and_comm]

theorem lor_eq_add_of_lt (a b k : Nat) (hb : b < 2 ^ k) :
    (a * 2 ^ k) ||| b = a * 2 ^ k + b := by
  apply Nat.eq_of_testBit_eq
  intro j
  rw [Nat.testBit_lor, mul_comm a (2 ^ k), Nat.testBit_mul_pow_two_add a hb j,
    Nat.testBit_mul_pow_two]
  rcases lt_or_le j k with hj | hj
  · simp [hj, Nat.not_le.mpr hj]
  · have hbj : b.testBit j = false :=
      Nat.testBit_eq_false_of_lt (lt_of_lt_of_le hb (Nat.pow_le_pow_right (by norm_num) hj))
    simp [hbj, hj, Nat.not_lt.mpr hj]

theorem and192_small : ∀ n < 64, n &&& 192 = 0 := by decide

theorem and63_small : ∀ n < 64, n &&& 63 = n := by decide

theorem or64_small : ∀ m < 64, (64 : Nat) ||| m = 64 + m := by decide

theorem add64_and192 : ∀ m < 64, (64 + m) &&& 192 = 64 := by decide

theorem add64_and63 : ∀ m < 64, (64 + m) &&& 63 = m := by decide

theorem read_length_encode_length (n : Nat) (h : n < 4294967296) (rest : List Nat) :
    read_length (encode_length n ++ rest) = some (n, rest) := by
  rcases le_or_lt n 63 with h63 | h63
  · have hlt : n < 64 := by omega
    have e1 : encode_length n = [n] := by simp [encode_length, h63]
    rw [e1]
    simp [read_length, and192_small n hlt, and63_small n hlt]
  · rcases le_or_lt n 16383 with h14 | h14
    · have hm : n / 256 < 64 := by omega
      have hdiv : n >>> 8 = n / 256 := by
        rw [Nat.shiftRight_eq_div_pow]
      have hb2 : n &&& 255 = n % 256 := by
        have h255 : (255 : Nat) = 2 ^ 8 - 1 := by norm_num
        rw [h255, and_mask_eq_mod]; norm_num
      have hn63 : ¬ n ≤ 63 := by omega
      have e1 : encode_length n = [64 + n / 256, n % 256] := by
        simp [encode_length, h14, hn63, hdiv, hb2, or64_small _ hm]
      rw [e1]
      have hcomb : ((n / 256) <<< 8) ||| (n % 256) = n := by
        rw [Nat.shiftLeft_eq]
        have h8 : (2 : Nat) ^ 8 = 256 := by norm_num
        have hr : n % 256 < 2 ^ 8 := by rw [h8]; omega
        rw [lor_eq_add_of_lt (n / 256) (n % 256) 8 hr, h8]
        omega
      simp [read_length, add64_and192 _ hm, add64_and63 _ hm, hcomb]
    · have hn63 : ¬ n ≤ 63 := by omega
      have hn14 : ¬ n ≤ 16383 := by omega
      have e1 : encode_length n = 128 :: leBytes 4 n := by
        simp [encode_length, hn63, hn14]
      rw [e1]
      have c1 : ¬ ((128 : Nat) &&& 192 = 0) := by decide
      have c2 : ¬ ((128 : Nat) &&& 192 = 64) := by decide
      simp only [List.cons_append, read_length, if_neg c1, if_neg c2, if_pos rfl]
      exact readBytesLE_leBytes 4 n rest (by norm_num; omega)

/-! ### Theorems: string and value round trips of the snapshot codec -/

theorem read_string_encode_string (s : List Nat) (h : s.length < 4294967296)
    (rest : List Nat) :
    read_string (encode_string s ++ rest) = some (s, rest) := by
  unfold encode_string read_string
  rw [List.append_assoc, read_length_encode_length s.length h]
  have hlen : ¬ ((s ++ rest).length < s.length) := by
    simp [List.length_append]
  simp [hlen, List.take_left, List.drop_left]

theorem readListElems_encode (xs : List (List Nat))
    (h : ∀ s ∈ xs, s.length < 4294967296) (rest : List Nat) :
    readListElems xs.length ((xs.map encode_string).flatten ++ rest)
      = some (xs, rest) := by
  induction xs with
  | nil => simp [readListElems]
  | cons x xs ih =>
    simp only [List.map_cons, List.flatten_cons, List.length_cons, List.append_assoc]
    rw [readListElems, read_string_encode_string x (h x (by simp)) _]
    dsimp only
    rw [ih (fun s hs => h s (by simp [hs]))]

theorem readZsetPairs_encode (xs : List (List Nat × Nat))
    (h : ∀ p ∈ xs, p.1.length < 4294967296 ∧ p.2 < 18446744073709551616)
    (rest : List Nat) :
    readZsetPairs xs.length
        ((xs.map (fun ms => encode_string ms.1 ++ leBytes 8 ms.2)).flatten ++ rest)
      = some (xs, rest) := by
  induction xs with
  | nil => simp [readZsetPairs]
  | cons x xs ih =>
    simp only [List.map_cons, List.flatten_cons, List.length_cons, List.append_assoc]
    rw [readZsetPairs, read_string_encode_string x.1 (h x (by simp)).1 _]
    dsimp only
    rw [readBytesLE_leBytes 8 x.2 _ (by have := (h x (by simp)).2; norm_num at this ⊢; omega)]
    dsimp only
    rw [ih (fun p hp => h p (by simp [hp]))]

theorem readSetElems_encode (xs : List (List Nat)) (acc : List (List Nat))
    (h : ∀ s ∈ xs, s.length < 4294967296) (rest : List Nat) :
    readSetElems xs.length ((xs.map encode_string).flatten ++ rest) acc
      = some (xs.foldl pyAddSet acc, rest) := by
  induction xs generalizing acc with
  | nil => simp [readSetElems]
  | cons x xs ih =>
    simp only [List.map_cons, List.flatten_cons, List.length_cons, List.append_assoc,
      List.foldl_cons]
    rw [readSetElems, read_string_encode_string x (h x (by simp)) _]
    exact ih (pyAddSet acc x) (fun s hs => h s (by simp [hs]))

theorem foldl_pyAddSet_of_nodup (xs : List (List Nat)) :
    ∀ acc : List (List Nat), xs.Nodup → (∀ x ∈ xs, x ∉ acc) →
    xs.foldl pyAddSet acc = acc ++ xs := by
  induction xs with
  | nil => intro acc _ _; simp
  | cons x xs ih =>
    intro acc hnd hdis
    simp only [List.foldl_cons]
    have hx : x ∉ acc := hdis x (by simp)
    have hstep : pyAddSet acc x = acc ++ [x] := by simp [pyAddSet, hx]
    rw [hstep, ih (acc ++ [x]) (List.Nodup.of_cons hnd)]
    · simp
    · intro y hy
      simp only [List.mem_append, List.mem_singleton]
      push_neg
      constructor
      · exact hdis y (by simp [hy])
      · rintro rfl
        exact (List.nodup_cons.mp hnd).1 hy

theorem readHashPairs_encode (xs : List (List Nat × List Nat))
    (acc : List (List Nat × List Nat))
    (h : ∀ p ∈ xs, p.1.length < 4294967296 ∧ p.2.length < 4294967296)
    (rest : List Nat) :
    readHashPairs xs.length
        ((xs.map (fun fv => encode_string fv.1 ++ encode_string fv.2)).flatten ++ rest) acc
      = some (xs.foldl (fun a fv => pyDictSet a fv.1 fv.2) acc, rest) := by
  induction xs generalizing acc with
  | nil => simp [readHashPairs]
  | cons x xs ih =>
    simp only [List.map_cons, List.flatten_cons, List.length_cons, List.append_assoc,
      List.foldl_cons]
    rw [readHashPairs, read_string_encode_string x.1 (h x (by simp)).1 _]
    dsimp only
    rw [read_string_encode_string x.2 (h x (by simp)).2 _]
    dsimp only
    exact ih (pyDictSet acc x.1 x.2) (fun p hp => h p (by simp [hp]))

theorem pyDictSet_append_of_not_mem {α : Type} (acc : List (List Nat × α))
    (key : List Nat) (val : α) (h : key ∉ acc.map Prod.fst) :
    pyDictSet acc key val = acc ++ [(key, val)] := by
  induction acc with
  | nil => simp [pyDictSet]
  | cons p rest ih =>
    simp only [List.map_cons, List.mem_cons] at h
    push_neg at h
    cases p with
    | mk k v =>
      simp only [pyDictSet]
      rw [if_neg (Ne.symm h.1)]
      simp [ih h.2]

theorem foldl_pyDictSet_of_nodup {α : Type} (xs : List (List Nat × α)) :
    ∀ acc : List (List Nat × α), (xs.map Prod.fst).Nodup →
    (∀ p ∈ xs, p.1 ∉ acc.map Prod.fst) →
    xs.foldl (fun a fv => pyDictSet a fv.1 fv.2) acc = acc ++ xs := by
  induction xs with
  | nil => intro acc _ _; simp
  | cons x xs ih =>
    intro acc hnd hdis
    simp only [List.foldl_cons]
    rw [pyDictSet_append_of_not_mem acc x.1 x.2 (hdis x (by simp))]
    have hnd' : (xs.map Prod.fst).Nodup := by
      simp only [List.map_cons, List.nodup_cons] at hnd
      exact hnd.2
    have hside : ∀ p ∈ xs, p.1 ∉ (acc ++ [(x.1, x.2)]).map Prod.fst := by
      intro p hp
      rw [List.map_append, List.mem_append]
      push_neg
      refine ⟨hdis p (by simp [hp]), ?_⟩
      simp only [List.map_cons, List.map_nil, List.mem_singleton]
      intro hcontra
      simp only [List.map_cons, List.nodup_cons] at hnd
      exact absurd (hcontra ▸ List.mem_map_of_mem Prod.fst hp) hnd.1
    rw [ih (acc ++ [(x.1, x.2)]) hnd' hside]
    simp

theorem encode_value_fst_lt (v : RValue) : (encode_value v).1 < 5 := by
  cases v with
  | str s => simp [encode_value, RDB_TYPE_STRING]
  | list xs =>
    by_cases hxs : xs.isEmpty <;>
      simp [encode_value, hxs, RDB_TYPE_ZSET, RDB_TYPE_LIST]
  | set xs => simp [encode_value, RDB_TYPE_SET]
  | hash xs => simp [encode_value, RDB_TYPE_HASH]
  | zset xs => simp [encode_value, RDB_TYPE_ZSET]

theorem read_encoded_value_encode (v : RValue) (hv : wfValue v) (rest : List Nat) :
    read_encoded_value (encode_value v).1 ((encode_value v).2 ++ rest)
      = some (some (canonValue v), rest) := by
  cases v with
  | str s =>
    simp only [encode_value, read_encoded_value, RDB_TYPE_STRING, if_pos rfl]
    rw [read_string_encode_string s hv rest]
    simp [canonValue]
  | list xs =>
    cases xs with
    | nil =>
      simp only [encode_value, List.isEmpty_nil, if_pos rfl, read_encoded_value,
        RDB_TYPE_ZSET, RDB_TYPE_STRING, RDB_TYPE_LIST, RDB_TYPE_SET, RDB_TYPE_HASH]
      norm_num
      simp only [encode_zset_value, List.map_nil, List.flatten_nil, List.append_nil,
        List.length_nil]
      rw [read_length_encode_length 0 (by norm_num) rest]
      simp [readZsetPairs, canonValue]
    | cons x xs =>
      obtain ⟨hlen, helem⟩ := hv
      have he : encode_value (RValue.list (x :: xs))
          = (RDB_TYPE_LIST, encode_list_value (x :: xs)) := by
        simp [encode_value]
      rw [he]
      simp only [read_encoded_value, RDB_TYPE_LIST, RDB_TYPE_STRING]
      norm_num
      simp only [encode_list_value, List.append_assoc]
      rw [read_length_encode_length (x :: xs).length hlen _]
      dsimp only
      rw [readListElems_encode (x :: xs) helem rest]
      simp [canonValue]
  | set xs =>
    obtain ⟨hlen, helem, hnd⟩ := hv
    simp only [encode_value, read_encoded_value, RDB_TYPE_SET, RDB_TYPE_STRING,
      RDB_TYPE_LIST]
    norm_num
    simp only [encode_set_value, List.append_assoc]
    rw [read_length_encode_length xs.length hlen _]
    dsimp only
    rw [readSetElems_encode xs [] helem rest]
    rw [foldl_pyAddSet_of_nodup xs [] hnd (by simp)]
    simp [canonValue]
  | hash xs =>
    obtain ⟨hlen, helem, hnd⟩ := hv
    simp only [encode_value, read_encoded_value, RDB_TYPE_HASH, RDB_TYPE_STRING,
      RDB_TYPE_LIST, RDB_TYPE_SET]
    norm_num
    simp only [encode_hash_value, List.append_assoc]
    rw [read_length_encode_length xs.length hlen _]
    dsimp only
    rw [readHashPairs_encode xs [] helem rest]
    rw [foldl_pyDictSet_of_nodup xs [] hnd (by simp)]
    simp [canonValue]
  | zset xs =>
    obtain ⟨hlen, helem⟩ := hv
    simp only [encode_value, read_encoded_value, RDB_TYPE_ZSET, RDB_TYPE_STRING,
      RDB_TYPE_LIST, RDB_TYPE_SET, RDB_TYPE_HASH]
    norm_num
    simp only [encode_zset_value, List.append_assoc]
    rw [read_length_encode_length xs.length hlen _]
    dsimp only
    rw [readZsetPairs_encode xs helem rest]
    simp [canonValue]

theorem lookupAssoc_mem {κ α : Type} [DecidableEq κ] (xs : List (κ × α)) (k : κ)
    (v : α) (h : lookupAssoc xs k = some v) : (k, v) ∈ xs := by
  induction xs with
  | nil => simp [lookupAssoc] at h
  | cons p rest ih =>
    cases p with
    | mk k' v' =>
      by_cases hk : k' = k
      · subst hk
        rw [lookupAssoc, if_pos rfl] at h
        injection h with hv
        subst hv
        exact List.mem_cons_self _ _
      · rw [lookupAssoc, if_neg hk] at h
        exact List.mem_cons_of_mem _ (ih h)

theorem handle_sec_encode (now : ℚ) (key : List Nat) (v : RValue) (t : Nat)
    (rest : List Nat) (hk : key.length < 4294967296) (hv : wfValue v)
    (ht : t < 4294967296) :
    handle_key_value_pair_with_expiry_sec now
        ((leBytes 4 t ++
          ((encode_value v).1 :: (encode_string key ++ (encode_value v).2))) ++ rest)
      = if 0 < (t : ℚ) ∧ (t : ℚ) < now then some (none, rest)
        else some (some (key, some (canonValue v), (t : ℚ)), rest) := by
  unfold handle_key_value_pair_with_expiry_sec
  rw [List.append_assoc, readBytesLE_leBytes 4 t _ (by norm_num at ht ⊢; omega)]
  dsimp only
  rw [List.cons_append, List.append_assoc]
  dsimp only
  rw [read_string_encode_string key hk _]
  dsimp only
  rw [read_encoded_value_encode v hv rest]

theorem handle_ms_encode (now : ℚ) (key : List Nat) (v : RValue) (t : Nat)
    (rest : List Nat) (hk : key.length < 4294967296) (hv : wfValue v)
    (ht : t < 18446744073709551616) :
    handle_key_value_pair_with_expiry_ms now
        ((leBytes 8 t ++
          ((encode_value v).1 :: (encode_string key ++ (encode_value v).2))) ++ rest)
      = if 0 < (t : ℚ) / 1000 ∧ (t : ℚ) / 1000 < now then some (none, rest)
        else some (some (key, some (canonValue v), (t : ℚ) / 1000), rest) := by
  unfold handle_key_value_pair_with_expiry_ms
  rw [List.append_assoc, readBytesLE_leBytes 8 t _ (by norm_num at ht ⊢; omega)]
  dsimp only
  rw [List.cons_append, List.append_assoc]
  dsimp only
  rw [read_string_encode_string key hk _]
  dsimp only
  rw [read_encoded_value_encode v hv rest]

theorem handle_plain_encode (key : List Nat) (v : RValue) (rest : List Nat)
    (hk : key.length < 4294967296) (hv : wfValue v) :
    handle_key_value_pair (encode_value v).1
        ((encode_string key ++ (encode_value v).2) ++ rest)
      = some (some (key, canonValue v), rest) := by
  unfold handle_key_value_pair
  rw [List.append_assoc, read_string_encode_string key hk _]
  dsimp only
  rw [read_encoded_value_encode v hv rest]
  rfl

theorem parseLoop_step_plain (now : ℚ) (fuel : Nat) (key : List Nat) (v : RValue)
    (rest : List Nat) (d : List (List Nat × RValue)) (e : List (List Nat × ℚ))
    (hk : key.length < 4294967296) (hv : wfValue v) :
    parseLoop now (fuel + 1) (encode_key_value_pair key v ++ rest) d e
      = parseLoop now fuel rest (pyDictSet d key (canonValue v)) e := by
  have hlt := encode_value_fst_lt v
  have h1 : ¬((encode_value v).1 = RDB_OPCODE_EOF) := by rw [RDB_OPCODE_EOF]; omega
  have h2 : ¬((encode_value v).1 = RDB_OPCODE_SELECTDB) := by rw [RDB_OPCODE_SELECTDB]; omega
  have h3 : ¬((encode_value v).1 = RDB_OPCODE_EXPIRY_MS) := by rw [RDB_OPCODE_EXPIRY_MS]; omega
  have h4 : ¬((encode_value v).1 = RDB_OPCODE_EXPIRY_SEC) := by rw [RDB_OPCODE_EXPIRY_SEC]; omega
  unfold encode_key_value_pair
  rw [List.cons_append]
  simp only [parseLoop, if_neg h1, if_neg h2, if_neg h3, if_neg h4]
  rw [handle_plain_encode key v rest hk hv]
  rfl

theorem parseLoop_step_sec (now : ℚ) (fuel : Nat) (key : List Nat) (v : RValue)
    (m : Nat) (rest : List Nat) (d : List (List Nat × RValue))
    (e : List (List Nat × ℚ)) (hk : key.length < 4294967296) (hv : wfValue v)
    (hm : m < 4294967296) (hpos : 0 < m) (hkeep : ¬ ((m : ℚ) < now)) :
    parseLoop now (fuel + 1) (encode_key_value_pair_with_expiry_sec key v m ++ rest) d e
      = parseLoop now fuel rest (pyDictSet d key (canonValue v))
          (pyDictSet e key (m : ℚ)) := by
  have h1 : ¬(RDB_OPCODE_EXPIRY_SEC = RDB_OPCODE_EOF) := by decide
  have h2 : ¬(RDB_OPCODE_EXPIRY_SEC = RDB_OPCODE_SELECTDB) := by decide
  have h3 : ¬(RDB_OPCODE_EXPIRY_SEC = RDB_OPCODE_EXPIRY_MS) := by decide
  unfold encode_key_value_pair_with_expiry_sec
  rw [List.cons_append]
  simp only [parseLoop, if_neg h1, if_neg h2, if_neg h3, if_pos rfl]
  rw [handle_sec_encode now key v m rest hk hv hm]
  have hcond : ¬ (0 < (m : ℚ) ∧ (m : ℚ) < now) := fun hand => hkeep hand.2
  rw [if_neg hcond]
  dsimp only
  have hq : (0 : ℚ) < (m : ℚ) := by exact_mod_cast hpos
  rw [if_pos hq]
  rw [if_pos trivial]
  rfl

theorem parseLoop_step_record (now : ℚ) (fuel : Nat)
    (expires : List (List Nat × ℚ)) (key : List Nat) (v : RValue)
    (rest : List Nat) (d : List (List Nat × RValue)) (e : List (List Nat × ℚ))
    (hk : key.length < 4294967296) (hv : wfValue v)
    (hexp : ∀ p ∈ expires, ∃ m : Nat,
      p.2 = (m : ℚ) ∧ 0 < m ∧ m < 4294967296 ∧ now < (m : ℚ)) :
    parseLoop now (fuel + 1) (write_one_record expires key v ++ rest) d e
      = parseLoop now fuel rest (pyDictSet d key (canonValue v))
          (match lookupAssoc expires key with
            | some t => pyDictSet e key t
            | none => e) := by
  unfold write_one_record
  cases hlk : lookupAssoc expires key with
  | none => exact parseLoop_step_plain now fuel key v rest d e hk hv
  | some t =>
    obtain ⟨m, hmeq, hpos, hlt, hnow⟩ := hexp (key, t) (lookupAssoc_mem _ _ _ hlk)
    simp only at hmeq
    subst hmeq
    dsimp only
    have hle : ¬ ((m : ℚ) > 1000000000000) := by
      have : (m : ℚ) < 4294967296 := by exact_mod_cast hlt
      intro hgt
      linarith
    rw [if_neg hle]
    have hint : (pyInt ((m : Nat) : ℚ)).toNat = m := by
      unfold pyInt
      simp
    rw [hint]
    exact parseLoop_step_sec now fuel key v m rest d e hk hv hlt hpos
      (not_lt.mpr (le_of_lt hnow))

theorem parseLoop_records (now : ℚ) (expires : List (List Nat × ℚ))
    (hexp : ∀ p ∈ expires, ∃ m : Nat,
      p.2 = (m : ℚ) ∧ 0 < m ∧ m < 4294967296 ∧ now < (m : ℚ)) :
    ∀ (data : List (List Nat × RValue)) (fuel : Nat)
      (d : List (List Nat × RValue)) (e : List (List Nat × ℚ)),
      data.length < fuel →
      (∀ p ∈ data, p.1.length < 4294967296 ∧ wfValue p.2) →
      parseLoop now fuel
          ((data.map (fun kv => write_one_record expires kv.1 kv.2)).flatten
            ++ [RDB_OPCODE_EOF]) d e
        = (data.foldl (fun a kv => pyDictSet a kv.1 (canonValue kv.2)) d,
           data.foldl (fun a kv =>
             match lookupAssoc expires kv.1 with
             | some t => pyDictSet a kv.1 t
             | none => a) e) := by
  intro data
  induction data with
  | nil =>
    intro fuel d e hfuel _
    cases fuel with
    | zero => omega
    | succ f => simp [parseLoop, RDB_OPCODE_EOF]
  | cons kv data ih =>
    intro fuel d e hfuel hdata
    cases fuel with
    | zero => omega
    | succ f =>
      simp only [List.map_cons, List.flatten_cons, List.append_assoc, List.foldl_cons]
      rw [parseLoop_step_record now f expires kv.1 kv.2 _ d e
        (hdata kv (by simp)).1 (hdata kv (by simp)).2 hexp]
      exact ih f _ _ (by simp at hfuel ⊢; omega)
        (fun p hp => hdata p (by simp [hp]))

theorem foldl_canon_eq_map (data : List (List Nat × RValue))
    (hnd : (data.map Prod.fst).Nodup) :
    data.foldl (fun a kv => pyDictSet a kv.1 (canonValue kv.2)) []
      = data.map (fun kv => (kv.1, canonValue kv.2)) := by
  have hfold : data.foldl (fun a kv => pyDictSet a kv.1 (canonValue kv.2)) []
      = (data.map (fun kv => (kv.1, canonValue kv.2))).foldl
          (fun a p => pyDictSet a p.1 p.2) [] := by
    rw [List.foldl_map]
  rw [hfold, foldl_pyDictSet_of_nodup _ [] (by simpa using hnd) (by simp)]
  simp

theorem foldl_expiry_eq_filterMap (expires : List (List Nat × ℚ)) :
    ∀ (data : List (List Nat × RValue)) (acc : List (List Nat × ℚ)),
      (data.map Prod.fst).Nodup →
      (∀ p ∈ data, p.1 ∉ acc.map Prod.fst) →
      data.foldl (fun a kv =>
          match lookupAssoc expires kv.1 with
          | some t => pyDictSet a kv.1 t
          | none => a) acc
        = acc ++ data.filterMap
            (fun kv => (lookupAssoc expires kv.1).map (fun t => (kv.1, t))) := by
  intro data
  induction data with
  | nil => intro acc _ _; simp
  | cons kv data ih =>
    intro acc hnd hdis
    have hnd' : (data.map Prod.fst).Nodup := by
      simp only [List.map_cons, List.nodup_cons] at hnd
      exact hnd.2
    have hhd : kv.1 ∉ data.map Prod.fst := by
      simp only [List.map_cons, List.nodup_cons] at hnd
      exact hnd.1
    simp only [List.foldl_cons, List.filterMap_cons]
    cases hlk : lookupAssoc expires kv.1 with
    | none =>
      dsimp only
      rw [ih acc hnd' (fun p hp => hdis p (by simp [hp]))]
      simp
    | some t =>
      dsimp only
      rw [pyDictSet_append_of_not_mem acc kv.1 t (hdis kv (by simp))]
      rw [ih (acc ++ [(kv.1, t)]) hnd' ?side]
      · simp
      case side =>
        intro p hp
        rw [List.map_append, List.mem_append]
        push_neg
        refine ⟨hdis p (by simp [hp]), ?_⟩
        simp only [List.map_cons, List.map_nil, List.mem_singleton]
        intro hcontra
        exact hhd (hcontra ▸ List.mem_map_of_mem Prod.fst hp)

theorem one_le_length_write_one_record (expires : List (List Nat × ℚ))
    (key : List Nat) (v : RValue) :
    1 ≤ (write_one_record expires key v).length := by
  unfold write_one_record
  cases lookupAssoc expires key with
  | none => simp [encode_key_value_pair]
  | some t =>
    by_cases h : t > 1000000000000 <;>
      simp [h, encode_key_value_pair_with_expiry_ms, encode_key_value_pair_with_expiry_sec]

theorem length_le_flatten (l : List (List Nat)) (h : ∀ x ∈ l, 1 ≤ x.length) :
    l.length ≤ l.flatten.length := by
  induction l with
  | nil => simp
  | cons x xs ih =>
    simp only [List.length_cons, List.flatten_cons, List.length_append]
    have h1 := h x (by simp)
    have h2 := ih (fun y hy => h y (by simp [hy]))
    omega

theorem parse_write_redis_file (data : List (List Nat × RValue))
    (expires : List (List Nat × ℚ)) (now : ℚ)
    (hnd : (data.map Prod.fst).Nodup)
    (hdata : ∀ p ∈ data, p.1.length < 4294967296 ∧ wfValue p.2)
    (hdl : data.length < 4294967296) (hel : expires.length < 4294967296)
    (hexp : ∀ p ∈ expires, ∃ m : Nat,
      p.2 = (m : ℚ) ∧ 0 < m ∧ m < 4294967296 ∧ now < (m : ℚ)) :
    parse_redis_file (write_redis_file data expires 0) now
      = (data.map (fun kv => (kv.1, canonValue kv.2)),
         data.filterMap
           (fun kv => (lookupAssoc expires kv.1).map (fun t => (kv.1, t)))) := by
  set records : List Nat :=
    (data.map (fun kv => write_one_record expires kv.1 kv.2)).flatten with hrec
  have hsplit : write_redis_file data expires 0
      = (REDIS_MAGIC ++ RDB_VERSION_CURRENT) ++
          (RDB_OPCODE_SELECTDB :: 0 :: RDB_OPCODE_RESIZEDB ::
            (encode_length data.length ++ (encode_length expires.length ++
              (records ++ [RDB_OPCODE_EOF])))) := by
    simp [write_redis_file, write_header, write_database_selector, hrec,
      List.append_assoc]
  have hreclen : data.length ≤ records.length := by
    rw [hrec]
    have := length_le_flatten (data.map (fun kv => write_one_record expires kv.1 kv.2))
      (by intro x hx
          simp only [List.mem_map] at hx
          obtain ⟨kv, _, rfl⟩ := hx
          exact one_le_length_write_one_record expires kv.1 kv.2)
    simpa using this
  have htotlen : data.length + 1 < (write_redis_file data expires 0).length := by
    rw [hsplit]
    simp only [List.length_append, List.length_cons]
    omega
  unfold parse_redis_file
  rw [hsplit]
  rw [if_pos (by rw [List.append_assoc]; exact List.take_left' rfl)]
  rw [show ((REDIS_MAGIC ++ RDB_VERSION_CURRENT) ++
      (RDB_OPCODE_SELECTDB :: 0 :: RDB_OPCODE_RESIZEDB ::
        (encode_length data.length ++ (encode_length expires.length ++
          (records ++ [RDB_OPCODE_EOF]))))).drop 9
    = RDB_OPCODE_SELECTDB :: 0 :: RDB_OPCODE_RESIZEDB ::
        (encode_length data.length ++ (encode_length expires.length ++
          (records ++ [RDB_OPCODE_EOF]))) from List.drop_left' rfl]
  obtain ⟨f, hf⟩ : ∃ f, ((REDIS_MAGIC ++ RDB_VERSION_CURRENT) ++
      (RDB_OPCODE_SELECTDB :: 0 :: RDB_OPCODE_RESIZEDB ::
        (encode_length data.length ++ (encode_length expires.length ++
          (records ++ [RDB_OPCODE_EOF]))))).length = f + 1 := by
    apply Nat.exists_eq_succ_of_ne_zero
    simp [List.length_append]
  rw [hsplit] at htotlen
  rw [hf]
  have hfbound : data.length < f := by omega
  rw [parseLoop]
  rw [if_neg (by decide), if_pos rfl]
  have hsel : handle_database_selector
      (0 :: RDB_OPCODE_RESIZEDB ::
        (encode_length data.length ++ (encode_length expires.length ++
          (records ++ [RDB_OPCODE_EOF]))))
      = some (records ++ [RDB_OPCODE_EOF]) := by
    unfold handle_database_selector
    dsimp only
    rw [if_pos rfl]
    rw [read_length_encode_length data.length hdl _]
    dsimp only
    rw [read_length_encode_length expires.length hel _]
  rw [hsel]
  dsimp only
  rw [parseLoop_records now expires hexp data f [] [] hfbound hdata]
  rw [foldl_canon_eq_map data hnd,
    foldl_expiry_eq_filterMap expires data [] hnd (by simp)]
  simp

theorem lookupAssoc_filterMap_restrict (data : List (List Nat × RValue))
    (expires : List (List Nat × ℚ)) (k : List Nat)
    (hnd : (data.map Prod.fst).Nodup) :
    lookupAssoc
        (data.filterMap (fun kv => (lookupAssoc expires kv.1).map (fun t => (kv.1, t)))) k
      = if k ∈ data.map Prod.fst then lookupAssoc expires k else none := by
  induction data with
  | nil => simp [lookupAssoc]
  | cons kv data ih =>
    have hnd' : (data.map Prod.fst).Nodup := by
      simp only [List.map_cons, List.nodup_cons] at hnd
      exact hnd.2
    have hhd : kv.1 ∉ data.map Prod.fst := by
      simp only [List.map_cons, List.nodup_cons] at hnd
      exact hnd.1
    simp only [List.filterMap_cons]
    cases hlk : lookupAssoc expires kv.1 with
    | none =>
      simp only [Option.map_none']
      rw [ih hnd']
      by_cases hk : kv.1 = k
      · subst hk
        rw [if_neg (by simpa using hhd), if_pos (by simp)]
        exact hlk.symm
      · by_cases hmem : k ∈ data.map Prod.fst
        · rw [if_pos hmem, if_pos (by simp [hmem])]
        · rw [if_neg hmem, if_neg (by
            simp only [List.map_cons, List.mem_cons]
            push_neg
            exact ⟨fun h => hk h.symm, hmem⟩)]
    | some t =>
      simp only [Option.map_some']
      by_cases hk : kv.1 = k
      · subst hk
        rw [lookupAssoc, if_pos rfl, if_pos (by simp)]
        exact hlk.symm
      · rw [lookupAssoc, if_neg hk, ih hnd']
        by_cases hmem : k ∈ data.map Prod.fst
        · rw [if_pos hmem, if_pos (by simp [hmem])]
        · rw [if_neg hmem, if_neg (by
            simp only [List.map_cons, List.mem_cons]
            push_neg
            exact ⟨fun h => hk h.symm, hmem⟩)]

theorem parseLoop_step_ms (now : ℚ) (fuel : Nat) (key : List Nat) (v : RValue)
    (m : Nat) (rest : List Nat) (d : List (List Nat × RValue))
    (e : List (List Nat × ℚ)) (hk : key.length < 4294967296) (hv : wfValue v)
    (hm : m < 18446744073709551616) (hpos : 0 < m)
    (hkeep : ¬ ((m : ℚ) / 1000 < now)) :
    parseLoop now (fuel + 1) (encode_key_value_pair_with_expiry_ms key v m ++ rest) d e
      = parseLoop now fuel rest (pyDictSet d key (canonValue v))
          (pyDictSet e key ((m : ℚ) / 1000)) := by
  have h1 : ¬(RDB_OPCODE_EXPIRY_MS = RDB_OPCODE_EOF) := by decide
  have h2 : ¬(RDB_OPCODE_EXPIRY_MS = RDB_OPCODE_SELECTDB) := by decide
  unfold encode_key_value_pair_with_expiry_ms
  rw [List.cons_append]
  simp only [parseLoop, if_neg h1, if_neg h2, if_pos rfl]
  rw [handle_ms_encode now key v m rest hk hv hm]
  have hcond : ¬ (0 < (m : ℚ) / 1000 ∧ (m : ℚ) / 1000 < now) :=
    fun hand => hkeep hand.2
  rw [if_neg hcond]
  dsimp only
  have hq : (0 : ℚ) < (m : ℚ) / 1000 :=
    div_pos (by exact_mod_cast hpos) (by norm_num)
  rw [if_pos hq]
  rw [if_pos trivial]
  rfl

theorem parse_write_ms_regime (key : List Nat) (v : RValue) (m : Nat) (now : ℚ)
    (hk : key.length < 4294967296) (hv : wfValue v)
    (hm : (1000000000000 : ℚ) < (m : ℚ)) (hm8 : m < 18446744073709551616)
    (hnow : ¬ ((m : ℚ) / 1000 < now)) :
    parse_redis_file (write_redis_file [(key, v)] [(key, (m : ℚ))] 0) now
      = ([(key, canonValue v)], [(key, (m : ℚ) / 1000)]) := by
  have hpos : 0 < m := by
    have h0 : (0 : ℚ) < (m : ℚ) := lt_trans (by norm_num) hm
    exact_mod_cast h0
  have hint : (pyInt ((m : Nat) : ℚ)).toNat = m := by
    unfold pyInt
    simp
  have hrec1 : write_one_record [(key, (m : ℚ))] key v
      = encode_key_value_pair_with_expiry_ms key v m := by
    unfold write_one_record lookupAssoc
    rw [if_pos rfl]
    dsimp only
    rw [if_pos hm, hint]
  set record : List Nat := encode_key_value_pair_with_expiry_ms key v m
    with hrecdef
  have hsplit : write_redis_file [(key, v)] [(key, (m : ℚ))] 0
      = (REDIS_MAGIC ++ RDB_VERSION_CURRENT) ++
          (RDB_OPCODE_SELECTDB :: 0 :: RDB_OPCODE_RESIZEDB ::
            (encode_length 1 ++ (encode_length 1 ++
              (record ++ [RDB_OPCODE_EOF])))) := by
    simp [write_redis_file, write_header, write_database_selector, hrec1,
      hrecdef, List.append_assoc]
  have hreclen : 1 ≤ record.length := by
    rw [hrecdef]
    simp [encode_key_value_pair_with_expiry_ms]
  have hlen1 : encode_length 1 = [1] := by decide
  have hlen : ((REDIS_MAGIC ++ RDB_VERSION_CURRENT) ++
      (RDB_OPCODE_SELECTDB :: 0 :: RDB_OPCODE_RESIZEDB ::
        (encode_length 1 ++ (encode_length 1 ++
          (record ++ [RDB_OPCODE_EOF]))))).length
      = record.length + 15 := by
    simp [hlen1, REDIS_MAGIC, RDB_VERSION_CURRENT]
  unfold parse_redis_file
  rw [hsplit]
  rw [if_pos (by rw [List.append_assoc]; exact List.take_left' rfl)]
  rw [show ((REDIS_MAGIC ++ RDB_VERSION_CURRENT) ++
      (RDB_OPCODE_SELECTDB :: 0 :: RDB_OPCODE_RESIZEDB ::
        (encode_length 1 ++ (encode_length 1 ++
          (record ++ [RDB_OPCODE_EOF]))))).drop 9
    = RDB_OPCODE_SELECTDB :: 0 :: RDB_OPCODE_RESIZEDB ::
        (encode_length 1 ++ (encode_length 1 ++
          (record ++ [RDB_OPCODE_EOF]))) from List.drop_left' rfl]
  obtain ⟨f, hf⟩ : ∃ f, ((REDIS_MAGIC ++ RDB_VERSION_CURRENT) ++
      (RDB_OPCODE_SELECTDB :: 0 :: RDB_OPCODE_RESIZEDB ::
        (encode_length 1 ++ (encode_length 1 ++
          (record ++ [RDB_OPCODE_EOF]))))).length = f + 1 := by
    apply Nat.exists_eq_succ_of_ne_zero
    simp [List.length_append]
  have hfge : 2 ≤ f := by
    rw [hlen] at hf
    omega
  rw [hf]
  rw [parseLoop]
  rw [if_neg (by decide), if_pos rfl]
  have hsel : handle_database_selector
      (0 :: RDB_OPCODE_RESIZEDB ::
        (encode_length 1 ++ (encode_length 1 ++ (record ++ [RDB_OPCODE_EOF]))))
      = some (record ++ [RDB_OPCODE_EOF]) := by
    unfold handle_database_selector
    dsimp only
    rw [if_pos rfl]
    rw [read_length_encode_length 1 (by norm_num) _]
    dsimp only
    rw [read_length_encode_length 1 (by norm_num) _]
  rw [hsel]
  dsimp only
  obtain ⟨f2, hf2⟩ : ∃ f2, f = f2 + 1 := ⟨f - 1, by omega⟩
  rw [hf2, hrecdef]
  rw [parseLoop_step_ms now f2 key v m [RDB_OPCODE_EOF] [] [] hk hv hm8 hpos hnow]
  obtain ⟨f3, hf3⟩ : ∃ f3, f2 = f3 + 1 := ⟨f2 - 1, by omega⟩
  rw [hf3]
  simp [parseLoop, RDB_OPCODE_EOF, pyDictSet]

/-! ### Claim theorems: snapshot codec -/

/-- C7: for every integer `n` in `[0, 2^32)` the length encoding round
trips, `read_length (encode_length n) = n`, with the 6-bit form for
`0..63`, the 14-bit form for `64..16383` and the `0x80`-prefixed 4-byte
little-endian form otherwise; a negative length is rejected
(`ValueError` in the source, `none` here). -/
theorem claim_C7_length_roundtrip (n : Nat) (rest : List Nat)
    (h : n < 4294967296) :
    read_length (encode_length n ++ rest) = some (n, rest) ∧
    (n ≤ 63 → encode_length n = [n]) ∧
    (64 ≤ n → n ≤ 16383 → encode_length n = [0x40 ||| (n >>> 8), n &&& 0xFF]) ∧
    (16384 ≤ n → encode_length n = 0x80 :: leBytes 4 n) ∧
    (∀ m : Int, m < 0 → encode_length_checked m = none) ∧
    encode_length_checked (n : Int) = some (encode_length n) := by
  refine ⟨read_length_encode_length n h rest, ?_, ?_, ?_, ?_, ?_⟩
  · intro h63
    simp [encode_length, h63]
  · intro h64 h14
    have : ¬ n ≤ 63 := by omega
    simp [encode_length, this, h14]
  · intro h16
    have h1 : ¬ n ≤ 63 := by omega
    have h2 : ¬ n ≤ 16383 := by omega
    simp [encode_length, h1, h2]
  · intro m hm
    simp [encode_length_checked, hm]
  · have h1 : ¬ ((n : Int) < 0) := not_lt.mpr (Int.natCast_nonneg n)
    have h2 : (n : Int) < 4294967296 := by exact_mod_cast h
    simp [encode_length_checked, h1, h2]

theorem claim_C7_length_roundtrip_witness :
    (300 : Nat) < 4294967296 ∧
    read_length (encode_length 300 ++ [7]) = some (300, [7]) :=
  ⟨by norm_num, (claim_C7_length_roundtrip 300 [7] (by norm_num)).1⟩

/-- C2 (amended): writing a keyspace of the five non-stream kinds and then
parsing the file returns the keyspace exactly (an empty list comes back as
the ZSET representation of the same empty Python value, `canonValue`) and
the expiration map restricted to the stored keys — provided every
expiration is an integral number of seconds strictly below `2^32` (such
an instant always takes the `0xFC` seconds form, since `2^32 < 10^12`).
Outside that range the round trip fails: a fractional expiration is
truncated by the writer (`int(expiry_time)`, the counterexample); an
instant of at least `2^32` but at most `10^12` overflows the seconds
branch's `struct.pack("<I", ...)`, so the writer raises instead of
producing a record (the `pack_u32_checked` conjunct); and an instant
above `10^12` is treated by the writer as already being in milliseconds
and written raw, while the parser divides it by 1000, so it parses back
divided by 1000 (the final conjunct). -/
theorem claim_C2_roundtrip (data : List (List Nat × RValue))
    (expires : List (List Nat × ℚ)) (now : ℚ)
    (hnd : (data.map Prod.fst).Nodup)
    (hdata : ∀ p ∈ data, p.1.length < 4294967296 ∧ wfValue p.2)
    (hdl : data.length < 4294967296) (hel : expires.length < 4294967296)
    (hexp : ∀ p ∈ expires, ∃ m : Nat,
      p.2 = (m : ℚ) ∧ 0 < m ∧ m < 4294967296 ∧ now < (m : ℚ)) :
    parse_redis_file (write_redis_file data expires 0) now
      = (data.map (fun kv => (kv.1, canonValue kv.2)),
         data.filterMap
           (fun kv => (lookupAssoc expires kv.1).map (fun t => (kv.1, t)))) ∧
    ((∀ p ∈ expires, p.1 ∈ data.map Prod.fst) →
      ∀ k, lookupAssoc (parse_redis_file (write_redis_file data expires 0) now).2 k
        = lookupAssoc expires k) ∧
    (∀ t : Int, 4294967296 ≤ t → pack_u32_checked t = none) ∧
    (∀ (key : List Nat) (v : RValue) (m : Nat) (now2 : ℚ),
      key.length < 4294967296 → wfValue v →
      (1000000000000 : ℚ) < (m : ℚ) → m < 18446744073709551616 →
      ¬ ((m : ℚ) / 1000 < now2) →
      parse_redis_file (write_redis_file [(key, v)] [(key, (m : ℚ))] 0) now2
        = ([(key, canonValue v)], [(key, (m : ℚ) / 1000)])) := by
  have hmain := parse_write_redis_file data expires now hnd hdata hdl hel hexp
  refine ⟨hmain, ?_, ?_, ?_⟩
  · intro hdom k
    rw [hmain]
    dsimp only
    rw [lookupAssoc_filterMap_restrict data expires k hnd]
    by_cases hmem : k ∈ data.map Prod.fst
    · rw [if_pos hmem]
    · rw [if_neg hmem]
      cases hlk : lookupAssoc expires k with
      | none => rfl
      | some t =>
        exact absurd (hdom (k, t) (lookupAssoc_mem expires k t hlk)) hmem
  · intro t ht
    unfold pack_u32_checked
    rw [if_pos (Or.inr ht)]
  · intro key v m now2 hk hv hm hm8 hnow
    exact parse_write_ms_regime key v m now2 hk hv hm hm8 hnow

theorem claim_C2_roundtrip_witness :
    parse_redis_file
        (write_redis_file [([107], RValue.str [118]), ([104], RValue.list [[97], [98]])]
          [([107], ((5 : Nat) : ℚ))] 0) 1
      = ([([107], RValue.str [118]), ([104], RValue.list [[97], [98]])],
         [([107], ((5 : Nat) : ℚ))]) := by
  have h := claim_C2_roundtrip
    [([107], RValue.str [118]), ([104], RValue.list [[97], [98]])]
    [([107], ((5 : Nat) : ℚ))] 1
    (by decide)
    (by
      intro p hp
      fin_cases hp
      · exact ⟨by norm_num, by norm_num [wfValue]⟩
      · refine ⟨by norm_num, ?_⟩
        simp only [wfValue]
        refine ⟨by norm_num, ?_⟩
        intro s hs
        fin_cases hs <;> norm_num)
    (by norm_num) (by norm_num)
    (by
      intro p hp
      fin_cases hp
      exact ⟨5, rfl, by norm_num, by norm_num, by norm_num⟩)
  rw [h.1]
  decide

/-- C2 counterexample: with the fractional future expiration `10.5` on a
single string key, the snapshot round trip returns expiration `10`, not
`10.5` — `parse(write(K, E)) ≠ (K, E)` even though every instant of `E` is
strictly in the future of `now = 0`; and with the expiration
`2 * 10^12` (above the writer's `10^12` millisecond threshold) the round
trip returns `2 * 10^9` — the instant divided by 1000 — because the
writer emits the stored value unconverted as milliseconds while the
parser divides milliseconds by 1000. -/
theorem claim_C2_counterexample :
    parse_redis_file
        (write_redis_file [([107], RValue.str [118])] [([107], mkRat 21 2)] 0) 0
      = ([([107], RValue.str [118])], [([107], ((10 : Nat) : ℚ))]) ∧
    parse_redis_file
        (write_redis_file [([107], RValue.str [118])] [([107], mkRat 21 2)] 0) 0
      ≠ ([([107], RValue.str [118])], [([107], mkRat 21 2)]) ∧
    parse_redis_file
        (write_redis_file [([107], RValue.str [118])]
          [([107], ((2000000000000 : Nat) : ℚ))] 0) 0
      = ([([107], RValue.str [118])],
         [([107], ((2000000000000 : Nat) : ℚ) / 1000)]) ∧
    ((2000000000000 : Nat) : ℚ) / 1000 = ((2000000000 : Nat) : ℚ) ∧
    ((2000000000000 : Nat) : ℚ) / 1000 ≠ ((2000000000000 : Nat) : ℚ) := by
  refine ⟨by decide, by decide, ?_, by norm_num, by norm_num⟩
  have h := parse_write_ms_regime [107] (RValue.str [118]) 2000000000000 0
    (by norm_num) (by norm_num [wfValue]) (by norm_num) (by norm_num)
    (by
      push_neg
      positivity)
  rw [h]
  rfl

/-- C1 counterexample: the claim's opcode assignment is swapped relative to
the code.  The record the writer emits for a seconds expiry starts with the
byte `0xFC`, not `0xFD`: `encode_key_value_pair_with_expiry_sec` for key
`b"k"`, value `b"v"`, expiry `100` produces `0xFC`-prefixed bytes, and
symmetrically the `0xFD` handler is the 8-byte millisecond one (shown in
the amended theorem). -/
theorem claim_C1_counterexample :
    encode_key_value_pair_with_expiry_sec [107] (RValue.str [118]) 100
      = [0xFC, 100, 0, 0, 0, 0x00, 1, 107, 1, 118] ∧
    (encode_key_value_pair_with_expiry_sec [107] (RValue.str [118]) 100).head?
      ≠ some 0xFD ∧
    encode_key_value_pair_with_expiry_ms [107] (RValue.str [118]) 100
      = [0xFD, 100, 0, 0, 0, 0, 0, 0, 0, 0x00, 1, 107, 1, 118] := by
  refine ⟨by decide, by decide, by decide⟩

/-- C1 (amended): the writer emits `0xFC` followed by the expires-at
instant as a 4-byte little-endian unsigned integer of seconds, or `0xFD`
followed by an 8-byte little-endian unsigned integer of milliseconds —
the millisecond form chosen when the stored expiry value exceeds `10^12`
(not when it overflows 4-byte seconds); symmetrically the reader
interprets `0xFC` as a 4-byte seconds expiry and `0xFD` as an 8-byte
milliseconds expiry (divided by 1000 into seconds). -/
theorem claim_C1_amended (key : List Nat) (v : RValue) (t : Nat) (now : ℚ)
    (rest : List Nat) (e : ℚ) (hk : key.length < 4294967296) (hv : wfValue v)
    (ht4 : t < 4294967296) (ht8 : t < 18446744073709551616) :
    encode_key_value_pair_with_expiry_sec key v t
        = 0xFC :: (leBytes 4 t ++
            ((encode_value v).1 :: (encode_string key ++ (encode_value v).2))) ∧
    encode_key_value_pair_with_expiry_ms key v t
        = 0xFD :: (leBytes 8 t ++
            ((encode_value v).1 :: (encode_string key ++ (encode_value v).2))) ∧
    (write_one_record [(key, e)] key v
        = if e > 1000000000000 then
            encode_key_value_pair_with_expiry_ms key v (pyInt e).toNat
          else
            encode_key_value_pair_with_expiry_sec key v (pyInt e).toNat) ∧
    handle_key_value_pair_with_expiry_sec now
        ((leBytes 4 t ++
          ((encode_value v).1 :: (encode_string key ++ (encode_value v).2))) ++ rest)
      = (if 0 < (t : ℚ) ∧ (t : ℚ) < now then some (none, rest)
         else some (some (key, some (canonValue v), (t : ℚ)), rest)) ∧
    handle_key_value_pair_with_expiry_ms now
        ((leBytes 8 t ++
          ((encode_value v).1 :: (encode_string key ++ (encode_value v).2))) ++ rest)
      = (if 0 < (t : ℚ) / 1000 ∧ (t : ℚ) / 1000 < now then some (none, rest)
         else some (some (key, some (canonValue v), (t : ℚ) / 1000), rest)) := by
  refine ⟨rfl, rfl, ?_, handle_sec_encode now key v t rest hk hv ht4,
    handle_ms_encode now key v t rest hk hv ht8⟩
  unfold write_one_record lookupAssoc
  rw [if_pos rfl]

theorem claim_C1_amended_witness :
    encode_key_value_pair_with_expiry_sec [107] (RValue.str [118]) 100
      = 0xFC :: (leBytes 4 100 ++
          ((encode_value (RValue.str [118])).1 ::
            (encode_string [107] ++ (encode_value (RValue.str [118])).2))) ∧
    handle_key_value_pair_with_expiry_sec 0
        ((leBytes 4 100 ++
          ((encode_value (RValue.str [118])).1 ::
            (encode_string [107] ++ (encode_value (RValue.str [118])).2))) ++ [])
      = (if 0 < ((100 : Nat) : ℚ) ∧ ((100 : Nat) : ℚ) < 0 then some (none, [])
         else some (some ([107], some (canonValue (RValue.str [118])),
           ((100 : Nat) : ℚ)), [])) := by
  have h := claim_C1_amended [107] (RValue.str [118]) 100 0 [] ((7 : Nat) : ℚ)
    (by norm_num) (by norm_num [wfValue]) (by norm_num) (by norm_num)
  exact ⟨h.1, h.2.2.2.1⟩

/-! ### Theorems: association-list helpers for the command layer -/

theorem lookupAssoc_pyDictSet_self {κ α : Type} [DecidableEq κ]
    (l : List (κ × α)) (k : κ) (v : α) :
    lookupAssoc (pyDictSet l k v) k = some v := by
  induction l with
  | nil => simp [pyDictSet, lookupAssoc]
  | cons p rest ih =>
    cases p with
    | mk k' v' =>
      by_cases hk : k' = k
      · subst hk
        simp [pyDictSet, lookupAssoc]
      · simp [pyDictSet, lookupAssoc, hk, ih]

theorem lookupAssoc_pyDictSet_ne {κ α : Type} [DecidableEq κ]
    (l : List (κ × α)) (k k' : κ) (v : α) (h : k' ≠ k) :
    lookupAssoc (pyDictSet l k v) k' = lookupAssoc l k' := by
  induction l with
  | nil => simp [pyDictSet, lookupAssoc, Ne.symm h]
  | cons p rest ih =>
    cases p with
    | mk k0 v0 =>
      by_cases hk : k0 = k
      · subst hk
        simp [pyDictSet, lookupAssoc, Ne.symm h]
      · simp only [pyDictSet, if_neg hk, lookupAssoc]
        by_cases hk' : k0 = k'
        · simp [hk']
        · simp [hk', ih]

theorem lookupAssoc_pyDictPop_self {κ α : Type} [DecidableEq κ]
    (l : List (κ × α)) (k : κ) (hnd : (l.map Prod.fst).Nodup) :
    lookupAssoc (pyDictPop l k) k = none := by
  induction l with
  | nil => simp [pyDictPop, lookupAssoc]
  | cons p rest ih =>
    cases p with
    | mk k0 v0 =>
      simp only [List.map_cons, List.nodup_cons] at hnd
      by_cases hk : k0 = k
      · subst hk
        simp only [pyDictPop, if_pos rfl]
        cases hl : lookupAssoc rest k0 with
        | none => exact hl
        | some w =>
          exact absurd (List.mem_map_of_mem Prod.fst (lookupAssoc_mem rest k0 w hl)) hnd.1
      · simp [pyDictPop, hk, lookupAssoc, ih hnd.2]

theorem lookupAssoc_pyDictPop_ne {κ α : Type} [DecidableEq κ]
    (l : List (κ × α)) (k k' : κ) (h : k' ≠ k) :
    lookupAssoc (pyDictPop l k) k' = lookupAssoc l k' := by
  induction l with
  | nil => simp [pyDictPop]
  | cons p rest ih =>
    cases p with
    | mk k0 v0 =>
      by_cases hk : k0 = k
      · subst hk
        simp [pyDictPop, lookupAssoc, Ne.symm h]
      · simp only [pyDictPop, if_neg hk, lookupAssoc]
        by_cases hk' : k0 = k'
        · simp [hk']
        · simp [hk', ih]

/-! ### Claim theorems: TTL on read paths (C3) -/

/-- C3 (amended): only the string read path (`get_value`, hence `GET`)
checks the TTL, and it treats the key as expired only when `t < now`
strictly and `t ≠ 0`; that access removes the entry and its expiration
and answers the null bulk.  The list, hash and set read paths perform no
TTL check at all: with the same expired entry they return the live value
and leave the store unchanged. -/
theorem claim_C3_ttl_amended (st : Handler) (now : ℚ) (key : String) (t : ℚ)
    (ht : lookupAssoc st.expiration key = some t) (ht0 : t ≠ 0)
    (htlt : t < now)
    (hndm : (st.memory.map Prod.fst).Nodup)
    (hnde : (st.expiration.map Prod.fst).Nodup) :
    (get_value st now key).1 = none ∧
    lookupAssoc (get_value st now key).2.memory key = none ∧
    lookupAssoc (get_value st now key).2.expiration key = none ∧
    (exec_get st now key).1 = NOT_FOUND_RESPONSE ∧
    (∀ xs, lookupAssoc st.memory key = some (.list xs) →
      exec_llen st key = (":" ++ toString xs.length ++ "\r\n", st)) ∧
    (∀ h f v, lookupAssoc st.memory key = some (.hash h) →
      lookupAssoc h f = some v → v ≠ "" → v ≠ NOT_FOUND_RESPONSE →
      v ≠ WRONG_TYPE_RESPONSE →
      exec_hget st key f
        = ("$" ++ toString v.length ++ "\r\n" ++ v ++ "\r\n", st)) ∧
    (∀ xs m, lookupAssoc st.memory key = some (.set xs) → m ∈ xs →
      exec_sismember st key m = (":1\r\n", st)) := by
  have hexp : isExpired st.expiration now key = true := by
    simp [isExpired, ht, ht0, htlt]
  have hgv : get_value st now key
      = (none, { st with memory := pyDictPop st.memory key,
                          expiration := pyDictPop st.expiration key }) := by
    simp [get_value, hexp]
  refine ⟨by rw [hgv], ?_, ?_, ?_, ?_, ?_, ?_⟩
  · rw [hgv]
    exact lookupAssoc_pyDictPop_self st.memory key hndm
  · rw [hgv]
    exact lookupAssoc_pyDictPop_self st.expiration key hnde
  · simp [exec_get, hgv, as_bulk_string]
  · intro xs hxs
    simp [exec_llen, get_list_from_memory, hxs]
  · intro h f v hh hf h1 h2 h3
    simp [exec_hget, get_hash_map_from_memory, hh, hf, as_bulk_string, h1, h2, h3]
  · intro xs m hxs hm
    simp only [exec_sismember, get_set_from_memory, hxs, if_pos hm]
    rfl

theorem claim_C3_ttl_amended_witness :
    (get_value ⟨[("k", MemVal.str "v")], [("k", ((1 : Nat) : ℚ))], [], 0, 0⟩
        ((2 : Nat) : ℚ) "k").1 = none ∧
    lookupAssoc (get_value ⟨[("k", MemVal.str "v")], [("k", ((1 : Nat) : ℚ))], [], 0, 0⟩
        ((2 : Nat) : ℚ) "k").2.memory "k" = none := by
  have h := claim_C3_ttl_amended
    ⟨[("k", MemVal.str "v")], [("k", ((1 : Nat) : ℚ))], [], 0, 0⟩
    ((2 : Nat) : ℚ) "k" ((1 : Nat) : ℚ)
    (by simp [lookupAssoc]) (by norm_num) (by norm_num)
    (by simp) (by simp)
  exact ⟨h.1, h.2.1⟩

/-- C3 counterexample: a list key whose expiration has passed is still
served by the list read path, and the entry survives the access; at the
exact expiry instant even `GET` still returns the string.  The claim's
"every read path behaves as if the key were absent and removes the entry
at `now ≥ t`" is false on both counts. -/
theorem claim_C3_counterexample :
    exec_lrange ⟨[("k", MemVal.list ["a"])], [("k", ((1 : Nat) : ℚ))], [], 0, 0⟩
        "k" 0 0
      = ("*1\r\n$1\r\na\r\n",
         ⟨[("k", MemVal.list ["a"])], [("k", ((1 : Nat) : ℚ))], [], 0, 0⟩) ∧
    exec_get ⟨[("k", MemVal.str "v")], [("k", ((5 : Nat) : ℚ))], [], 0, 0⟩
        ((5 : Nat) : ℚ) "k"
      = ("$1\r\nv\r\n",
         ⟨[("k", MemVal.str "v")], [("k", ((5 : Nat) : ℚ))], [], 0, 0⟩) := by
  refine ⟨by decide, by decide⟩

/-! ### Claim theorems: replica propagation (C4) -/

/-- C4 (amended): only `SET` is propagated.  A successful `SET` appends
its encoded array form to every registered replica writer (and resets the
acknowledgment counter); the other mutating commands of the embedded
fragment — `RPUSH`, `LPUSH`, `LPOP`, `SADD`, `HSET` — write nothing to
any replica writer. -/
theorem claim_C4_propagation_amended (st : Handler) (now : ℚ)
    (command : List String) (h3 : 3 ≤ command.length)
    (hpx : ∀ e, scanPX (command.drop 3) none ≠ .error e) :
    (exec_set st now command).2.writers
      = st.writers.map (fun w => w ++ encode_redis_protocol command) ∧
    (exec_set st now command).1 = "+OK\r\n" ∧
    (∀ key values, (exec_rpush st key values).2.writers = st.writers) ∧
    (∀ key values, (exec_lpush st key values).2.writers = st.writers) ∧
    (∀ key, (exec_lpop st key).2.writers = st.writers) ∧
    (∀ key values, (exec_sadd st key values).2.writers = st.writers) ∧
    (∀ key pairs, (exec_hset st key pairs).2.writers = st.writers) := by
  have hset : exec_set st now command
      = ("+OK\r\n",
        { memory := pyDictSet st.memory (command.getD 1 "") (.str (command.getD 2 "")),
          expiration :=
            match (scanPX (command.drop 3) none).toOption.join with
            | some ms => pyDictSet st.expiration (command.getD 1 "")
                (now + (ms : ℚ) / 1000)
            | none => pyDictPop st.expiration (command.getD 1 ""),
          writers := st.writers.map (fun w => w ++ encode_redis_protocol command),
          numacks := 0,
          changes := st.changes + 1 }) := by
    unfold exec_set
    rw [if_neg (by omega)]
    cases hscan : scanPX (command.drop 3) none with
    | error e => exact absurd hscan (hpx e)
    | ok v =>
      cases v with
      | none => simp [hscan, Except.toOption]
      | some ms => simp [hscan, Except.toOption]
  refine ⟨by rw [hset], by rw [hset], ?_, ?_, ?_, ?_, ?_⟩
  · intro key values
    unfold exec_rpush
    cases get_list_from_memory st.memory key with
    | none => rfl
    | some xs => rfl
  · intro key values
    unfold exec_lpush
    cases get_list_from_memory st.memory key with
    | none => rfl
    | some xs => rfl
  · intro key
    unfold exec_lpop
    cases hl : get_list_from_memory st.memory key with
    | none => rfl
    | some xs => cases xs with
      | nil => rfl
      | cons x rest => rfl
  · intro key values
    unfold exec_sadd
    cases get_set_from_memory st.memory key with
    | none => rfl
    | some xs => rfl
  · intro key pairs
    unfold exec_hset
    cases get_hash_map_from_memory st.memory key with
    | none => rfl
    | some h => rfl

theorem claim_C4_propagation_amended_witness :
    (exec_set ⟨[], [], [""], 0, 0⟩ 0 ["SET", "k", "v"]).2.writers
      = [encode_redis_protocol ["SET", "k", "v"]] ∧
    (exec_rpush ⟨[], [], [""], 0, 0⟩ "L" ["a"]).2.writers = [""] := by
  have h := claim_C4_propagation_amended ⟨[], [], [""], 0, 0⟩ 0 ["SET", "k", "v"]
    (by norm_num) (by intro e; simp [scanPX])
  refine ⟨?_, h.2.2.1 "L" ["a"]⟩
  rw [h.1]
  rfl

/-- C4 counterexample: with one registered replica writer, executing the
mutating command `RPUSH L a` changes the store but writes nothing to the
replica: its stream stays empty even though the encoded form of the
command is nonempty.  Mutating commands other than `SET` are not
propagated. -/
theorem claim_C4_counterexample :
    exec_rpush ⟨[], [], [""], 0, 0⟩ "L" ["a"]
      = (":1\r\n", ⟨[("L", MemVal.list ["a"])], [], [""], 0, 0⟩) ∧
    encode_redis_protocol ["RPUSH", "L", "a"]
      = "*3\r\n$5\r\nRPUSH\r\n$1\r\nL\r\n$1\r\na\r\n" ∧
    ¬ (encode_redis_protocol ["RPUSH", "L", "a"] = "") := by
  refine ⟨by decide, by decide, by decide⟩

/-! ### Claim theorems: SMOVE into an absent destination (C10) -/

/-- C10: for `SMOVE src dst m` with `m` in the source set and no value at
`dst`, the reply is `:1` and `m` leaves the source set, but the member is
added to the fresh unstored set the accessor returned for the missing
destination: no destination key is created and `m` ends up in neither
set. -/
theorem claim_C10_smove (st : Handler) (src dst m : String)
    (xs : List String) (hsrc : lookupAssoc st.memory src = some (.set xs))
    (hm : m ∈ xs) (hnd : xs.Nodup)
    (hdst : lookupAssoc st.memory dst = none) (hne : dst ≠ src) :
    exec_smove st src dst m
      = (":1\r\n",
         { st with memory := pyDictSet st.memory src (.set (xs.erase m)) }) ∧
    lookupAssoc (exec_smove st src dst m).2.memory dst = none ∧
    lookupAssoc (exec_smove st src dst m).2.memory src
      = some (.set (xs.erase m)) ∧
    m ∉ xs.erase m := by
  have hmain : exec_smove st src dst m
      = (":1\r\n",
         { st with memory := pyDictSet st.memory src (.set (xs.erase m)) }) := by
    unfold exec_smove
    simp only [get_set_from_memory, hsrc, hdst, if_pos hm]
    simp [hdst]
  refine ⟨hmain, ?_, ?_, List.Nodup.not_mem_erase hnd⟩
  · rw [hmain]
    dsimp only
    rw [lookupAssoc_pyDictSet_ne st.memory src dst (.set (xs.erase m)) hne]
    exact hdst
  · rw [hmain]
    dsimp only
    exact lookupAssoc_pyDictSet_self st.memory src (.set (xs.erase m))

theorem claim_C10_smove_witness :
    exec_smove ⟨[("s", MemVal.set ["a", "b"])], [], [], 0, 0⟩ "s" "d" "a"
      = (":1\r\n", ⟨[("s", MemVal.set ["b"])], [], [], 0, 0⟩) ∧
    lookupAssoc (exec_smove ⟨[("s", MemVal.set ["a", "b"])], [], [], 0, 0⟩
        "s" "d" "a").2.memory "d" = none := by
  have h := claim_C10_smove ⟨[("s", MemVal.set ["a", "b"])], [], [], 0, 0⟩
    "s" "d" "a" ["a", "b"] (by simp [lookupAssoc]) (by simp) (by simp)
    (by simp [lookupAssoc]) (by simp)
  refine ⟨?_, h.2.1⟩
  rw [h.1]
  rfl

/-! ### Claim theorems: not-found replies (C8) -/

/-- C8 (amended): a read whose target key or element is absent never
answers an error token, but the reply is not always `$-1` or `:0`:
`LPOP`/`RPOP` on a missing or empty list, `HGET` of a missing field and
`LINDEX` out of range answer the simple string `+nil\r\n`; `GET` of a
missing (non-expired) key and `SPOP` on a missing or empty set answer the
null bulk `$-1\r\n`. -/
theorem claim_C8_notfound_amended (st : Handler) (key field : String)
    (now : ℚ) :
    (get_list_from_memory st.memory key = some [] →
      exec_lpop st key = (NIL_RESPONSE, st) ∧
      exec_rpop st key = (NIL_RESPONSE, st)) ∧
    (∀ h, get_hash_map_from_memory st.memory key = some h →
      lookupAssoc h field = none →
      exec_hget st key field = (NIL_RESPONSE, st)) ∧
    (∀ xs idxStr i, get_list_from_memory st.memory key = some xs →
      pyParseInt idxStr = some i →
      ((if i < 0 then (xs.length : Int) + i else i) < 0 ∨
        (xs.length : Int) ≤ (if i < 0 then (xs.length : Int) + i else i)) →
      exec_lindex st key idxStr = (NIL_RESPONSE, st)) ∧
    (lookupAssoc st.memory key = none →
      isExpired st.expiration now key = false →
      exec_get st now key = (NOT_FOUND_RESPONSE, st)) ∧
    (get_set_from_memory st.memory key = some [] →
      exec_spop st key = (NOT_FOUND_RESPONSE, st)) ∧
    NIL_RESPONSE.data.head? = some '+' ∧
    NOT_FOUND_RESPONSE.data.head? = some '$' := by
  refine ⟨?_, ?_, ?_, ?_, ?_, by decide, by decide⟩
  · intro hl
    constructor
    · unfold exec_lpop
      rw [hl]
    · unfold exec_rpop
      rw [hl]
  · intro h hh hf
    unfold exec_hget
    rw [hh]
    dsimp only
    rw [hf]
  · intro xs idxStr i hxs hi hrange
    unfold exec_lindex
    rw [hi]
    dsimp only
    rw [hxs]
    dsimp only
    rw [if_pos hrange]
  · intro hmem hexp
    unfold exec_get get_value
    rw [hexp]
    dsimp only
    rw [hmem]
    rfl
  · intro hs
    unfold exec_spop
    rw [hs]

theorem claim_C8_notfound_amended_witness :
    exec_lpop ⟨[], [], [], 0, 0⟩ "k" = (NIL_RESPONSE, ⟨[], [], [], 0, 0⟩) ∧
    exec_get ⟨[], [], [], 0, 0⟩ 0 "k"
      = (NOT_FOUND_RESPONSE, ⟨[], [], [], 0, 0⟩) := by
  have h := claim_C8_notfound_amended ⟨[], [], [], 0, 0⟩ "k" "f" 0
  exact ⟨(h.1 (by simp [get_list_from_memory, lookupAssoc])).1,
    h.2.2.2.1 (by simp [lookupAssoc]) (by simp [isExpired, lookupAssoc])⟩

/-- C8 counterexample: `LPOP` on a missing key replies `+nil\r\n`, which
is neither the null bulk `$-1\r\n` nor a `:0\r\n` count (it is a simple
string), refuting the claimed reply shape; `HGET` of a missing field and
`LINDEX` out of range answer the same `+nil\r\n`. -/
theorem claim_C8_counterexample :
    exec_lpop ⟨[], [], [], 0, 0⟩ "k" = ("+nil\r\n", ⟨[], [], [], 0, 0⟩) ∧
    ("+nil\r\n" : String) ≠ "$-1\r\n" ∧
    ("+nil\r\n" : String) ≠ ":0\r\n" ∧
    exec_hget ⟨[("h", MemVal.hash [("f", "v")])], [], [], 0, 0⟩ "h" "g"
      = ("+nil\r\n", ⟨[("h", MemVal.hash [("f", "v")])], [], [], 0, 0⟩) := by
  refine ⟨by decide, by decide, by decide, by decide⟩

/-! ### Claim theorems: LRANGE clamping (C9) -/

theorem pySlice_nil {α : Type} (a b : Int) : pySlice ([] : List α) a b = [] := by
  simp [pySlice]

theorem pySlice_eq_drop_take {α : Type} (xs : List α) (s3 t3 : Int)
    (h0 : 0 ≤ s3) (h1 : s3 ≤ (xs.length : Int) - 1)
    (h2 : 0 ≤ t3) (h3 : t3 ≤ (xs.length : Int) - 1) :
    pySlice xs s3 (t3 + 1) = (xs.drop s3.toNat).take (t3.toNat + 1 - s3.toNat) := by
  have ha : ¬ (s3 < 0) := by omega
  have hb : ¬ (t3 + 1 < 0) := by omega
  simp only [pySlice]
  rw [if_neg ha, if_neg hb]
  have hmins : s3 ⊓ ((xs.length : Int)) = s3 := min_eq_left (by omega)
  have hminb : (t3 + 1) ⊓ ((xs.length : Int)) = t3 + 1 := min_eq_left (by omega)
  rw [hmins, hminb, List.drop_take]
  congr 1
  omega

/-- C9 (amended): `LRANGE` resolves negative indices from the tail and
clamps **both** bounds into `[0, len-1]` — so a `start` beyond the end of
the list is pulled back to the last index rather than yielding an empty
result — and returns the inclusive slice between the clamped bounds; only
when the clamped `start` exceeds the clamped `stop` is the result empty,
and an empty result is rendered as the literal `+(empty array)`, not as
an empty RESP array. -/
theorem claim_C9_lrange_amended (st : Handler) (key : String)
    (xs : List String) (start stop : Int)
    (hl : lookupAssoc st.memory key = some (.list xs)) :
    exec_lrange st key start stop
      = (generate_redis_array
          ((xs.drop ((min ((xs.length : Int) - 1)
              (max 0 (if start < 0 then (xs.length : Int) + start else start))).toNat))
            |>.take ((min ((xs.length : Int) - 1)
              (max 0 (if stop < 0 then (xs.length : Int) + stop else stop))).toNat + 1
              - (min ((xs.length : Int) - 1)
              (max 0 (if start < 0 then (xs.length : Int) + start else start))).toNat)),
         st) ∧
    (min ((xs.length : Int) - 1)
        (max 0 (if stop < 0 then (xs.length : Int) + stop else stop))
      < min ((xs.length : Int) - 1)
        (max 0 (if start < 0 then (xs.length : Int) + start else start)) →
      (exec_lrange st key start stop).1 = EMPTY_ARRAY_RESPONSE) := by
  have hget : get_list_from_memory st.memory key = some xs := by
    simp [get_list_from_memory, hl]
  set n : Int := (xs.length : Int) with hn
  set s1 : Int := if start < 0 then n + start else start with hs1
  set t1 : Int := if stop < 0 then n + stop else stop with ht1
  set s3 : Int := min (n - 1) (max 0 s1) with hs3
  set t3 : Int := min (n - 1) (max 0 t1) with ht3
  have hmain : exec_lrange st key start stop
      = (generate_redis_array (pySlice xs s3 (t3 + 1)), st) := by
    unfold exec_lrange
    rw [hget]
  have hslice : pySlice xs s3 (t3 + 1)
      = (xs.drop s3.toNat).take (t3.toNat + 1 - s3.toNat) := by
    rcases List.eq_nil_or_concat xs with hxs | ⟨ys, y, hxs⟩
    · subst hxs
      rw [pySlice_nil]
      simp
    · have hxsne : xs ≠ [] := by rw [hxs]; simp
      have hlen : 0 < xs.length := List.length_pos.mpr hxsne
      have hnpos : 1 ≤ n := by omega
      have hs3range : 0 ≤ s3 ∧ s3 ≤ n - 1 := by
        constructor
        · rw [hs3]
          exact le_min (by omega) (le_max_left _ _)
        · rw [hs3]
          exact min_le_left _ _
      have ht3range : 0 ≤ t3 ∧ t3 ≤ n - 1 := by
        constructor
        · rw [ht3]
          exact le_min (by omega) (le_max_left _ _)
        · rw [ht3]
          exact min_le_left _ _
      exact pySlice_eq_drop_take xs s3 t3 hs3range.1 (by omega) ht3range.1 (by omega)
  refine ⟨by rw [hmain, hslice], ?_⟩
  intro hlt
  rw [hmain, hslice]
  have hempty : t3.toNat + 1 - s3.toNat = 0 := by omega
  rw [hempty]
  simp [generate_redis_array, EMPTY_ARRAY_RESPONSE]

theorem claim_C9_lrange_amended_witness :
    exec_lrange ⟨[("L", MemVal.list ["a", "b", "c"])], [], [], 0, 0⟩ "L" 5 10
      = ("*1\r\n$1\r\nc\r\n",
         ⟨[("L", MemVal.list ["a", "b", "c"])], [], [], 0, 0⟩) := by
  have h := claim_C9_lrange_amended ⟨[("L", MemVal.list ["a", "b", "c"])], [], [], 0, 0⟩
    "L" ["a", "b", "c"] 5 10 (by simp [lookupAssoc])
  rw [h.1]
  decide

/-- C9 counterexample: on the three-element list `[a, b, c]`,
`LRANGE L 5 10` — whose resolved `start` lies beyond the end of the list —
returns the one-element array `[c]` rather than the empty array, because
the code clamps `start` down to the last index; and a genuinely empty
result (`LRANGE L 2 1`) is rendered `+(empty array)`, not an empty RESP
array. -/
theorem claim_C9_counterexample :
    exec_lrange ⟨[("L", MemVal.list ["a", "b", "c"])], [], [], 0, 0⟩ "L" 5 10
      = ("*1\r\n$1\r\nc\r\n",
         ⟨[("L", MemVal.list ["a", "b", "c"])], [], [], 0, 0⟩) ∧
    exec_lrange ⟨[("L", MemVal.list ["a", "b", "c"])], [], [], 0, 0⟩ "L" 2 1
      = ("+(empty array)",
         ⟨[("L", MemVal.list ["a", "b", "c"])], [], [], 0, 0⟩) := by
  refine ⟨by decide, by decide⟩

/-! ### Claim theorems: WRONGTYPE on kind mismatch (C6) -/

theorem get_list_from_memory_wrong (mem : List (String × MemVal))
    (key : String) (w : MemVal) (h : lookupAssoc mem key = some w)
    (hw : ∀ xs, w ≠ .list xs) : get_list_from_memory mem key = none := by
  unfold get_list_from_memory
  rw [h]
  cases w with
  | str s => rfl
  | list xs => exact absurd rfl (hw xs)
  | set xs => rfl
  | hash xs => rfl
  | zset xs => rfl

theorem get_set_from_memory_wrong (mem : List (String × MemVal))
    (key : String) (w : MemVal) (h : lookupAssoc mem key = some w)
    (hw : ∀ xs, w ≠ .set xs) : get_set_from_memory mem key = none := by
  unfold get_set_from_memory
  rw [h]
  cases w with
  | str s => rfl
  | list xs => rfl
  | set xs => exact absurd rfl (hw xs)
  | hash xs => rfl
  | zset xs => rfl

theorem get_hash_map_from_memory_wrong (mem : List (String × MemVal))
    (key : String) (w : MemVal) (h : lookupAssoc mem key = some w)
    (hw : ∀ xs, w ≠ .hash xs) : get_hash_map_from_memory mem key = none := by
  unfold get_hash_map_from_memory
  rw [h]
  cases w with
  | str s => rfl
  | list xs => rfl
  | set xs => rfl
  | hash xs => exact absurd rfl (hw xs)
  | zset xs => rfl

theorem get_value_wrongtype (st : Handler) (now : ℚ) (key : String)
    (w : MemVal) (hmem : lookupAssoc st.memory key = some w)
    (hw : ∀ s, w ≠ .str s)
    (hexp : isExpired st.expiration now key = false) :
    get_value st now key = (some WRONG_TYPE_RESPONSE, st) := by
  unfold get_value
  rw [hexp]
  rw [if_neg (by decide : ¬ (false = true))]
  rw [hmem]
  cases w with
  | str s => exact absurd rfl (hw s)
  | list xs => rfl
  | set xs => rfl
  | hash xs => rfl
  | zset xs => rfl

/-- C6: a mutating command addressed to an existing key holding a value of
a different kind than the command expects replies the WRONGTYPE error
token and leaves the handler state — the value, the expirations, all
other keys, the writers and the counters — exactly as before: the list
writes (`LPUSH`, `RPUSH`, `LPUSHX`, `RPUSHX`, `LPOP`, `RPOP`, `LSET` when
the index parses, `LINSERT`), the set writes (`SADD`, `SREM`, `SPOP`,
`SMOVE` from a wrong-kind source), `HSET`, and — when the key is not
expired — `INCRBY` and `APPEND`. -/
theorem claim_C6_wrongtype (st : Handler) (key dst : String) (w : MemVal)
    (now : ℚ) (values : List String)
    (idxStr pos pivot v field : String) (i : Int)
    (hmem : lookupAssoc st.memory key = some w) :
    ((∀ xs, w ≠ .list xs) →
      exec_lpush st key values = (WRONG_TYPE_RESPONSE, st) ∧
      exec_rpush st key values = (WRONG_TYPE_RESPONSE, st) ∧
      exec_lpushx st key values = (WRONG_TYPE_RESPONSE, st) ∧
      exec_rpushx st key values = (WRONG_TYPE_RESPONSE, st) ∧
      exec_lpop st key = (WRONG_TYPE_RESPONSE, st) ∧
      exec_rpop st key = (WRONG_TYPE_RESPONSE, st) ∧
      (pyParseInt idxStr = some i →
        exec_lset st key idxStr v = (WRONG_TYPE_RESPONSE, st)) ∧
      exec_linsert st key pos pivot v = (WRONG_TYPE_RESPONSE, st)) ∧
    ((∀ xs, w ≠ .set xs) →
      exec_sadd st key values = (WRONG_TYPE_RESPONSE, st) ∧
      exec_srem st key values = (WRONG_TYPE_RESPONSE, st) ∧
      exec_spop st key = (WRONG_TYPE_RESPONSE, st) ∧
      exec_smove st key dst v = (WRONG_TYPE_RESPONSE, st)) ∧
    ((∀ xs, w ≠ .hash xs) →
      exec_hset st key [(field, v)] = (WRONG_TYPE_RESPONSE, st)) ∧
    ((∀ s, w ≠ .str s) → isExpired st.expiration now key = false →
      exec_incrby st now key idxStr = some (WRONG_TYPE_RESPONSE, st) ∧
      exec_append st now key v = some (WRONG_TYPE_RESPONSE, st)) := by
  refine ⟨?_, ?_, ?_, ?_⟩
  · intro hw
    have hnone := get_list_from_memory_wrong st.memory key w hmem hw
    refine ⟨?_, ?_, ?_, ?_, ?_, ?_, ?_, ?_⟩
    · unfold exec_lpush
      rw [hnone]
    · unfold exec_rpush
      rw [hnone]
    · unfold exec_lpushx
      rw [hnone]
    · unfold exec_rpushx
      rw [hnone]
    · unfold exec_lpop
      rw [hnone]
    · unfold exec_rpop
      rw [hnone]
    · intro hp
      unfold exec_lset
      rw [hp]
      dsimp only
      rw [hnone]
    · unfold exec_linsert
      rw [hnone]
  · intro hw
    have hnone := get_set_from_memory_wrong st.memory key w hmem hw
    refine ⟨?_, ?_, ?_, ?_⟩
    · unfold exec_sadd
      rw [hnone]
    · unfold exec_srem
      rw [hnone]
    · unfold exec_spop
      rw [hnone]
    · unfold exec_smove
      rw [hnone]
  · intro hw
    have hnone := get_hash_map_from_memory_wrong st.memory key w hmem hw
    unfold exec_hset
    rw [hnone]
  · intro hw hexp
    have hval := get_value_wrongtype st now key w hmem hw hexp
    constructor
    · unfold exec_incrby
      rw [hval]
      dsimp only
      rw [if_pos rfl]
    · unfold exec_append
      rw [hval]
      dsimp only
      rw [if_pos rfl]

theorem claim_C6_wrongtype_witness :
    exec_lpush ⟨[("k", MemVal.str "s")], [], [], 0, 0⟩ "k" ["v"]
      = (WRONG_TYPE_RESPONSE, ⟨[("k", MemVal.str "s")], [], [], 0, 0⟩) ∧
    exec_incrby ⟨[("k", MemVal.list ["a"])], [], [], 0, 0⟩ 0 "k" "1"
      = some (WRONG_TYPE_RESPONSE,
          ⟨[("k", MemVal.list ["a"])], [], [], 0, 0⟩) := by
  constructor
  · exact ((claim_C6_wrongtype ⟨[("k", MemVal.str "s")], [], [], 0, 0⟩ "k" "d"
      (MemVal.str "s") 0 ["v"] "0" "BEFORE" "p" "v" "f" 0
      (by simp [lookupAssoc])).1 (by intro xs; simp)).1
  · exact ((claim_C6_wrongtype ⟨[("k", MemVal.list ["a"])], [], [], 0, 0⟩ "k" "d"
      (MemVal.list ["a"]) 0 ["v"] "1" "BEFORE" "p" "v" "f" 0
      (by simp [lookupAssoc])).2.2.2 (by intro s; simp)
      (by simp [isExpired, lookupAssoc])).1

/-! ### Claim theorems: stream id validation and monotonicity (C5) -/

theorem pyDictSet_not_mem_append {κ α : Type} [DecidableEq κ]
    (acc : List (κ × α)) (key : κ) (val : α) (h : key ∉ acc.map Prod.fst) :
    pyDictSet acc key val = acc ++ [(key, val)] := by
  induction acc with
  | nil => rfl
  | cons p rest ih =>
    cases p with
    | mk a b =>
      have ha : ¬ (a = key) := fun he => h (by simp [he])
      simp only [pyDictSet, if_neg ha, List.cons_append, List.append_eq]
      rw [ih (fun hm => h (by simp [hm]))]

theorem pyDictSet_replace_last {κ α : Type} [DecidableEq κ]
    (s : List (κ × α)) (lm : κ) (w v : α) (h : lm ∉ s.map Prod.fst) :
    pyDictSet (s ++ [(lm, w)]) lm v = s ++ [(lm, v)] := by
  induction s with
  | nil => simp [pyDictSet]
  | cons p rest ih =>
    cases p with
    | mk a b =>
      have ha : ¬ (a = lm) := fun he => h (by simp [he])
      simp only [List.cons_append, pyDictSet, if_neg ha, List.append_eq]
      rw [ih (fun hm => h (by simp [hm]))]

theorem lookupAssoc_append_last {κ α : Type} [DecidableEq κ]
    (s : List (κ × α)) (lm : κ) (w : α) (h : lm ∉ s.map Prod.fst) :
    lookupAssoc (s ++ [(lm, w)]) lm = some w := by
  induction s with
  | nil => simp [lookupAssoc]
  | cons p rest ih =>
    cases p with
    | mk a b =>
      have ha : ¬ (a = lm) := fun he => h (by simp [he])
      simp only [List.cons_append, lookupAssoc, if_neg ha, List.append_eq]
      exact ih (fun hm => h (by simp [hm]))

theorem lookupAssoc_none_not_mem {κ α : Type} [DecidableEq κ]
    (l : List (κ × α)) (k : κ) (h : lookupAssoc l k = none) :
    k ∉ l.map Prod.fst := by
  induction l with
  | nil => simp
  | cons p rest ih =>
    cases p with
    | mk a b =>
      by_cases ha : a = k
      · rw [lookupAssoc, if_pos ha] at h
        exact absurd h (by simp)
      · rw [lookupAssoc, if_neg ha] at h
        simp only [List.map_cons, List.mem_cons]
        push_neg
        exact ⟨Ne.symm ha, ih h⟩

theorem flattenIds_concat (s : StreamEntries) (lm : Nat)
    (inner : List (Nat × List String)) :
    flattenIds (s ++ [(lm, inner)])
      = flattenIds s ++ inner.map (fun qf => (lm, qf.1)) := by
  simp [flattenIds]

theorem flattenIds_last (s : StreamEntries) (lm : Nat)
    (inner : List (Nat × List String)) (lq : Nat) (f : List String) :
    (flattenIds (s ++ [(lm, inner ++ [(lq, f)])])).getLast? = some (lm, lq) := by
  rw [flattenIds_concat, List.map_append, ← List.append_assoc]
  simp

theorem chain_lt_last_ge {l : List Nat} {lm x : Nat}
    (h : List.Chain' (· < ·) (l ++ [lm])) (hx : x ∈ l ++ [lm]) : x ≤ lm := by
  have hp : List.Pairwise (· < ·) (l ++ [lm]) := List.chain'_iff_pairwise.mp h
  rcases List.mem_append.mp hx with hx | hx
  · have hlt := (List.pairwise_append.mp hp).2.2 x hx lm (by simp)
    omega
  · simp at hx
    omega

theorem chain_lt_last_not_mem {l : List Nat} {lm : Nat}
    (h : List.Chain' (· < ·) (l ++ [lm])) : lm ∉ l := by
  intro hm
  have hp := List.chain'_iff_pairwise.mp h
  have := (List.pairwise_append.mp hp).2.2 lm hm lm (by simp)
  omega

theorem inner_keys_chain (s : StreamEntries) (lm : Nat)
    (inner : List (Nat × List String))
    (h : List.Chain' idLt (flattenIds (s ++ [(lm, inner)]))) :
    List.Chain' (· < ·) (inner.map Prod.fst) := by
  rw [flattenIds_concat] at h
  have h2 := (List.chain'_append.mp h).2.1
  rw [List.chain'_map] at h2
  rw [List.chain'_map]
  apply h2.imp
  intro a b hab
  simp only [idLt] at hab
  omega

theorem xadd_store_cases (store : List (String × StreamEntries))
    (k stream_id : String) (fields : List String)
    (hwf : ∀ s, lookupAssoc store k = some s → streamWF s) :
    (xadd store k stream_id fields).2 = store ∨
    ∃ s1, streamWF s1 ∧
      (xadd store k stream_id fields).2 = pyDictSet store k s1 := by
  unfold xadd
  dsimp only
  by_cases herr : validate_stream_id store k (generate_stream_id stream_id) = ""
  · rw [if_neg (not_not_intro herr)]
    cases hparse : parseStreamId (generate_stream_id stream_id) with
    | none =>
      left
      rfl
    | some mq =>
      obtain ⟨m, q⟩ := mq
      dsimp only
      refine Or.inr ⟨_, ?_, rfl⟩
      cases hl : lookupAssoc store k with
      | none =>
        dsimp only
        have hnil : lookupAssoc ([] : StreamEntries) m = none := rfl
        rw [hnil]
        dsimp only
        simp [streamWF, flattenIds, idLt]
      | some s =>
        dsimp only
        have W := hwf s hl
        obtain ⟨Wne, Winner, Wkeys, Wchain⟩ := W
        rcases List.eq_nil_or_concat s with rfl | ⟨s2, p, rfl⟩
        · exact absurd rfl Wne
        obtain ⟨lm, inner⟩ := p
        have hinne : inner ≠ [] :=
          Winner (lm, inner) (by simp)
        rcases List.eq_nil_or_concat inner with rfl | ⟨inner2, pf, rfl⟩
        · exact absurd rfl hinne
        obtain ⟨lq, f⟩ := pf
        simp only [List.concat_eq_append] at *
        have Wkeys' : List.Chain' (· < ·) (s2.map Prod.fst ++ [lm]) := by
          simpa using Wkeys
        -- extract the acceptance facts from the validator
        unfold validate_stream_id at herr
        by_cases hle : pyStrLe (generate_stream_id stream_id) "0-0" = true
        · rw [if_pos hle] at herr
          exact absurd herr (by decide)
        rw [if_neg hle, hl] at herr
        dsimp only at herr
        rw [List.getLast?_concat] at herr
        dsimp only at herr
        rw [List.getLast?_concat] at herr
        dsimp only at herr
        rw [hparse] at herr
        dsimp only at herr
        by_cases h1 : m < lm
        · rw [if_pos h1] at herr
          exact absurd herr (by decide)
        rw [if_neg h1] at herr
        by_cases h2 : m = lm ∧ q ≤ lq
        · rw [if_pos h2] at herr
          exact absurd herr (by decide)
        clear herr
        -- now the store update
        cases hm : lookupAssoc (s2 ++ [(lm, inner2 ++ [(lq, f)])]) m with
        | none =>
          dsimp only
          have hmnot : m ∉ (s2 ++ [(lm, inner2 ++ [(lq, f)])]).map Prod.fst :=
            lookupAssoc_none_not_mem _ _ hm
          have hlmmem : lm ∈ (s2 ++ [(lm, inner2 ++ [(lq, f)])]).map Prod.fst := by
            simp
          have hmne : m ≠ lm := fun he => hmnot (he ▸ hlmmem)
          have hlt : lm < m := by omega
          refine ⟨by simp, ?_, ?_, ?_⟩
          · intro p hp
            rcases List.mem_append.mp hp with hp | hp
            · exact Winner p hp
            · simp at hp
              rw [hp]
              simp
          · have : ((s2 ++ [(lm, inner2 ++ [(lq, f)])]) ++
                [(m, [(q, fields)])]).map Prod.fst
                = (s2.map Prod.fst ++ [lm]) ++ [m] := by
              simp
            rw [this]
            rw [List.chain'_append]
            refine ⟨Wkeys', by simp, ?_⟩
            intro x hx y hy
            rw [List.getLast?_concat] at hx
            simp at hx hy
            omega
          · rw [flattenIds_concat]
            have hmap : ([(q, fields)].map (fun qf => (m, qf.1)))
                = [(m, q)] := by simp
            rw [hmap]
            rw [List.chain'_append]
            refine ⟨Wchain, by simp, ?_⟩
            intro x hx y hy
            rw [flattenIds_last] at hx
            simp at hx hy
            rw [← hx, ← hy]
            exact Or.inl hlt
        | some inner0 =>
          dsimp only
          have hmmem : m ∈ (s2 ++ [(lm, inner2 ++ [(lq, f)])]).map Prod.fst :=
            List.mem_map_of_mem Prod.fst (lookupAssoc_mem _ _ _ hm)
          have hmle : m ≤ lm := by
            apply chain_lt_last_ge Wkeys'
            simpa using hmmem
          have heq : m = lm := by omega
          subst heq
          have hq : lq < q := by omega
          have hnotmem : m ∉ s2.map Prod.fst := chain_lt_last_not_mem Wkeys'
          have hlook : lookupAssoc (s2 ++ [(m, inner2 ++ [(lq, f)])]) m
              = some (inner2 ++ [(lq, f)]) :=
            lookupAssoc_append_last s2 m _ hnotmem
          have hinner0 : inner0 = inner2 ++ [(lq, f)] :=
            Option.some.inj (hm.symm.trans hlook)
          subst hinner0
          have hichain : List.Chain' (· < ·)
              ((inner2 ++ [(lq, f)]).map Prod.fst) :=
            inner_keys_chain s2 m _ Wchain
          have hichain' : List.Chain' (· < ·) (inner2.map Prod.fst ++ [lq]) := by
            simpa using hichain
          have hqnot : q ∉ (inner2 ++ [(lq, f)]).map Prod.fst := by
            intro hqm
            have : q ≤ lq := by
              apply chain_lt_last_ge hichain'
              simpa using hqm
            omega
          rw [pyDictSet_not_mem_append _ _ _ hqnot]
          rw [pyDictSet_replace_last _ _ _ _ hnotmem]
          refine ⟨by simp, ?_, ?_, ?_⟩
          · intro p hp
            rcases List.mem_append.mp hp with hp | hp
            · exact Winner p (List.mem_append_left _ hp)
            · simp at hp
              rw [hp]
              simp
          · have : (s2 ++ [(m, (inner2 ++ [(lq, f)]) ++ [(q, fields)])]).map Prod.fst
                = s2.map Prod.fst ++ [m] := by
              simp
            rw [this]
            exact Wkeys'
          · have hflat : flattenIds
                (s2 ++ [(m, (inner2 ++ [(lq, f)]) ++ [(q, fields)])])
                = flattenIds (s2 ++ [(m, inner2 ++ [(lq, f)])]) ++ [(m, q)] := by
              rw [flattenIds_concat, flattenIds_concat]
              simp
            rw [hflat]
            rw [List.chain'_append]
            refine ⟨Wchain, by simp, ?_⟩
            intro x hx y hy
            rw [flattenIds_last] at hx
            simp at hx hy
            rw [← hx, ← hy]
            exact Or.inr ⟨rfl, hq⟩
  · rw [if_pos herr]
    left
    rfl

theorem xadd_preserves_inv (store : List (String × StreamEntries))
    (k sidStr : String) (fields : List String)
    (hinv : ∀ key s, lookupAssoc store key = some s → streamWF s) :
    ∀ key s, lookupAssoc (xadd store k sidStr fields).2 key = some s →
      streamWF s := by
  intro key s hs
  rcases xadd_store_cases store k sidStr fields (fun s' h => hinv k s' h)
    with hcase | ⟨s1, hwf1, hcase⟩
  · rw [hcase] at hs
    exact hinv key s hs
  · rw [hcase] at hs
    by_cases hk : key = k
    · subst hk
      rw [lookupAssoc_pyDictSet_self] at hs
      injection hs with h2
      exact h2 ▸ hwf1
    · rw [lookupAssoc_pyDictSet_ne store k key s1 hk] at hs
      exact hinv key s hs

theorem applyXadds_preserves_inv
    (cmds : List (String × String × List String)) :
    ∀ store, (∀ key s, lookupAssoc store key = some s → streamWF s) →
    ∀ key s, lookupAssoc (applyXadds store cmds) key = some s →
      streamWF s := by
  induction cmds with
  | nil =>
    intro store h key s hs
    exact h key s (by simpa [applyXadds] using hs)
  | cons c rest ih =>
    intro store h key s hs
    have h' := xadd_preserves_inv store c.1 c.2.1 c.2.2 h
    have hstep : applyXadds store (c :: rest)
        = applyXadds (xadd store c.1 c.2.1 c.2.2).2 rest := by
      simp [applyXadds]
    rw [hstep] at hs
    exact ih _ h' key s hs

/-- C5 (amended): the XADD validator rejects the **literal string**
`0-0` in every state, and on a nonempty well-formed stream it accepts an
id exactly when the id exceeds the stream's last `(ms, seq)` id in
lexicographic order; but the zero-id guard is only a string comparison,
so alternative spellings of the zero id (such as `00-0`) pass it on an
empty or missing stream.  After any sequence of XADD commands applied to
a store whose streams are all well-formed, every stream's entry-id
sequence is still strictly increasing. -/
theorem claim_C5_xadd_monotonic (cmds : List (String × String × List String))
    (store0 : List (String × StreamEntries))
    (h0 : ∀ key s, lookupAssoc store0 key = some s → streamWF s) :
    (∀ (store : List (String × StreamEntries)) (k : String)
        (fields : List String),
      (xadd store k "0-0" fields).2 = store ∧
      (xadd store k "0-0" fields).1
        = "-ERR The ID specified in XADD must be greater than 0-0\r\n") ∧
    (∀ (store : List (String × StreamEntries)) (k sid : String)
        (s : StreamEntries) (lm lq m q : Nat)
        (inner : List (Nat × List String)) (f : List String),
      lookupAssoc store k = some s →
      s.getLast? = some (lm, inner) → inner.getLast? = some (lq, f) →
      parseStreamId sid = some (m, q) →
      pyStrLe sid "0-0" = false →
      (validate_stream_id store k sid = "" ↔ idLt (lm, lq) (m, q))) ∧
    (∀ key s, lookupAssoc (applyXadds store0 cmds) key = some s →
      List.Chain' idLt (flattenIds s)) := by
  refine ⟨?_, ?_, ?_⟩
  · intro store k fields
    have hgen : generate_stream_id "0-0" = "0-0" := by decide
    have hval : validate_stream_id store k "0-0"
        = "-ERR The ID specified in XADD must be greater than 0-0\r\n" := by
      unfold validate_stream_id
      rw [if_pos (by decide : pyStrLe "0-0" "0-0" = true)]
    have hne : validate_stream_id store k "0-0" ≠ "" := by
      rw [hval]
      decide
    constructor
    · unfold xadd
      dsimp only
      rw [hgen, if_pos hne]
    · unfold xadd
      dsimp only
      rw [hgen, if_pos hne]
      dsimp only
      exact hval
  · intro store k sid s lm lq m q inner f hl hlast hilast hparse hle
    unfold validate_stream_id
    rw [if_neg (by simp [hle] : ¬ (pyStrLe sid "0-0" = true))]
    rw [hl]
    dsimp only
    rw [hlast]
    dsimp only
    rw [hilast]
    dsimp only
    rw [hparse]
    dsimp only
    by_cases h1 : m < lm
    · rw [if_pos h1]
      simp only [idLt]
      exact iff_of_false (by decide) (by omega)
    · rw [if_neg h1]
      by_cases h2 : m = lm ∧ q ≤ lq
      · rw [if_pos h2]
        simp only [idLt]
        exact iff_of_false (by decide) (by omega)
      · rw [if_neg h2]
        simp only [idLt]
        exact iff_of_true trivial (by omega)
  · intro key s hs
    exact (applyXadds_preserves_inv cmds store0 h0 key s hs).2.2.2

theorem claim_C5_xadd_monotonic_witness :
    List.Chain' idLt
      (flattenIds [(0, [(0, ["a", "b"])]), (1, [(1, ["c", "d"])])]) := by
  have h := claim_C5_xadd_monotonic
    [("s", "00-0", ["a", "b"]), ("s", "1-1", ["c", "d"])] []
    (by intro key s hs; simp [lookupAssoc] at hs)
  exact h.2.2 "s" [(0, [(0, ["a", "b"])]), (1, [(1, ["c", "d"])])] (by decide)

/-- C5 counterexample: the zero-id guard of the XADD validator is a
**string** comparison against `"0-0"`, so the alternative spelling
`00-0` of the zero id passes it, and XADD on an empty store accepts it
and inserts the entry id `(0, 0)` — the id `0-0` is not rejected in
every state, only its literal spelling is. -/
theorem claim_C5_counterexample :
    (xadd [] "s" "00-0" ["f", "v"]).2 = [("s", [(0, [(0, ["f", "v"])])])] ∧
    (xadd [] "s" "00-0" ["f", "v"]).1 = "$4\r\n00-0\r\n" ∧
    parseStreamId "00-0" = some (0, 0) ∧
    parseStreamId "0-0" = some (0, 0) := by
  refine ⟨by decide, by decide, by decide, by decide⟩
